import Mathlib

/-
Verification development for the attribute-driven reactive dispatch engine of the
`datastar` library (`src/library/src/lib/core.ts`, class `Datastar`).

The embedding is shallow and executable:
* Strings are Lean `String`s; the JavaScript string operations used by the source
  (`startsWith`, `slice`, `split` on a single-character separator, `toLowerCase`,
  `.length`) are modelled char-for-char on `String.data` so that every definition
  reduces inside the kernel.
* Host regular expressions (`RegExp`) are opaque matchers `String → Bool`, and each
  preprocessor's `matchAll`/`replace` cycle is an opaque rewrite `String → String`
  keyed by the preprocessor's object identity (a `Nat`), exactly as the `Set`-based
  dedup in the source keys on object identity.
* `new Function('ctx', fnContent)` either succeeds or throws a syntax error; the
  host compiler is modelled as an oracle `compiles : String → Bool`.
* Throwing `new Error(...)` is modelled with `Except`: a thrown validation error
  aborts the whole `applyPlugins` call, while the caught compilation error
  (`try`/`catch` at lines 188-195) is a normal result.
* DOM elements form a rose tree; element identity (the key of the `removals` map)
  is the element's path (list of child indices) from the walk root, which is stable
  because no modelled operation changes the tree structure.
-/

/-! ## JavaScript string primitives (modelled on the char list) -/

/-- JS `s.startsWith(pre)`. -/
def strStartsWith (s pre : String) : Bool := List.isPrefixOf pre.data s.data

/-- JS `s.length` (the sources only ever compare it with 0). -/
def strLength (s : String) : Nat := s.data.length

/-- JS `s.slice(n)`. -/
def strDrop (s : String) (n : Nat) : String := ⟨s.data.drop n⟩

/-- JS `s.toLowerCase()` (ASCII-faithful). -/
def strToLower (s : String) : String := ⟨s.data.map Char.toLower⟩

/-- JS `s[0].toLowerCase() + s.slice(1)` for nonempty `s`. -/
def lowerFirst (s : String) : String :=
  match s.data with
  | [] => s
  | c :: cs => ⟨Char.toLower c :: cs⟩

/-- Helper for `splitOnChar`: JS `String.prototype.split` with a one-char separator. -/
def splitOnCharAux (c : Char) : List Char → List Char → List String
  | [], acc => [⟨acc.reverse⟩]
  | x :: xs, acc =>
    if x = c then ⟨acc.reverse⟩ :: splitOnCharAux c xs []
    else splitOnCharAux c xs (x :: acc)

/-- JS `s.split(c)` for a single-character separator (always returns a nonempty list,
and `"".split(c) = [""]`, as in JavaScript). -/
def splitOnChar (c : Char) (s : String) : List String := splitOnCharAux c s.data []

/-- JS `parts.join(c)`. -/
def joinWithChar (c : Char) : List String → String
  | [] => ""
  | [x] => x
  | x :: xs => x ++ ⟨[c]⟩ ++ joinWithChar c xs

/-! ## Data model

`AttributePlugin` mirrors the plugin descriptor of `types.ts` as used by `core.ts`.
The source field `prefix` is a Lean keyword, so it is named `pfx` here.
`onGlobalInit` is an external hook (it never feeds back into the dispatcher state
modelled here) and is omitted; `onLoad` returns an optional teardown callback,
modelled as an optional token `Nat` (function identity). -/

/-- Pruned view of the per-occurrence `AttributeContext` built at lines 167-182:
the store/merge/re-dispatch/action/ref/reactivity handles are external collaborators
(the store-capture aspect is modelled separately for the store-replacement claims),
and `expressionFn` is never inspected by the dispatcher itself. -/
structure AttributeContext where
  elPath : List Nat
  elId : String
  elTag : String
  key : String
  expression : String
  modifiers : List (String × List String)

/-- A `Preprocesser` (source spelling) from `types.ts`: a pattern plus a replacer.
`pid` is the object identity used by the `appliedProcessors : Set` at line 86;
`rewrite` packs the whole `matchAll`/named-group/`replace` cycle of lines 155-163,
which is host-regex behaviour opaque to this development. -/
structure Preprocesser where
  pid : Nat
  rewrite : String → String

/-- The plugin descriptor (fields in source order; `prefix` renamed to `pfx`).
`allowedTagRegexps : Set<RegExp>` becomes a list of opaque matchers,
`allowedModifiers : Set<string>` a list of labels, and the optional
`preprocessors` array is a plain list (`p.preprocessors || []` at line 151 makes
an absent array behave as the empty one). -/
structure AttributePlugin where
  pfx : String
  requiredPluginPrefixes : Option (List String) := none
  mustHaveEmptyKey : Bool := false
  mustNotEmptyKey : Bool := false
  mustHaveEmptyExpression : Bool := false
  mustNotEmptyExpression : Bool := false
  allowedTagRegexps : Option (List (String → Bool)) := none
  allowedModifiers : Option (List String) := none
  preprocessors : List Preprocesser := []
  bypassExpressionFunctionCreation : Option (AttributeContext → Bool) := none
  onLoad : AttributeContext → Option Nat := fun _ => none

/-- A DOM element (HTML/SVG): id, tag name, `dataset` entries in insertion order,
and child elements. `toHTMLorSVGElement` of the walker is total on this type. -/
inductive Element where
  | mk (id : String) (tagName : String) (dataset : List (String × String))
      (children : List Element)

def Element.id : Element → String
  | .mk i _ _ _ => i

def Element.tagName : Element → String
  | .mk _ t _ _ => t

def Element.dataset : Element → List (String × String)
  | .mk _ _ d _ => d

def Element.children : Element → List Element
  | .mk _ _ _ k => k

/-! ## Plugin registration (constructor, lines 31-49) -/

/-- The plugin's declared dependencies; `undefined` (line 38's truthiness test)
behaves exactly like an empty list. -/
def reqPrefixes (p : AttributePlugin) : List String :=
  match p.requiredPluginPrefixes with
  | some l => l
  | none => []

/-- First entry of `p.requiredPluginPrefixes` not yet in `allPluginPrefixes`
(the loop at lines 38-44 throws on the first such entry). -/
def firstUnmet (p : AttributePlugin) (seen : List String) : Option String :=
  (reqPrefixes p).find? (fun r => !(seen.contains r))

/-- The registration loop of lines 36-48: `acc` is `this.plugins`, `seen` is
`allPluginPrefixes` (insertion order kept; only membership is used). -/
def registerPlugins : List AttributePlugin → List AttributePlugin → List String →
    Except String (List AttributePlugin)
  | [], acc, _ => Except.ok acc
  | p :: rest, acc, seen =>
    match firstUnmet p seen with
    | some r => Except.error ("Plugin " ++ p.pfx ++ " requires plugin " ++ r)
    | none => registerPlugins rest (acc ++ [p]) (seen ++ [p.pfx])

/-- Constructor body for the already-combined plugin list
(`plugins = [...CorePlugins, ...plugins]` has been formed): the emptiness check of
line 34 followed by the registration loop. -/
def datastarConstructorCombined (plugins : List AttributePlugin) :
    Except String (List AttributePlugin) :=
  if plugins.isEmpty then Except.error "No plugins provided"
  else registerPlugins plugins [] []

/-- Modelled from the spec: the built-in plugin list `CorePlugins` is imported from
`plugins/core`, which is not among the provided sources. §4.1 of the spec states
"Built-in plugins are always prepended", so the list is modelled as nonempty,
holding one built-in plugin with no declared requirements. -/
def CorePlugins : List AttributePlugin := [{ pfx := "builtin" }]

/-- The constructor as called by a user: built-ins prepended (line 33), then the
combined-list registration. -/
def datastarConstructor (userPlugins : List AttributePlugin) :
    Except String (List AttributePlugin) :=
  datastarConstructorCombined (CorePlugins ++ userPlugins)

/-- Prefixes of a plugin list, in order. -/
def prefixList (ps : List AttributePlugin) : List String := ps.map (fun p => p.pfx)

/-! ## Removal / lifecycle registry (lines 29, 66-74, 199-204) -/

/-- `this.removals : Map<Element, Set<OnRemovalFn>>`, keyed by element path;
teardown callbacks are identity tokens. -/
abbrev RemovalMap : Type := List (List Nat × List Nat)

/-- `this.removals.get(element)` (`none` when the map has no entry). -/
def lookupRemovals : RemovalMap → List Nat → Option (List Nat)
  | [], _ => none
  | e :: rest, q => if e.1 = q then some e.2 else lookupRemovals rest q

/-- `this.removals.delete(element)`. -/
def eraseRemovals : RemovalMap → List Nat → RemovalMap
  | [], _ => []
  | e :: rest, q => if e.1 = q then eraseRemovals rest q else e :: eraseRemovals rest q

/-- Lines 199-204: create the element's set if absent, then `Set.add` the teardown
(adding an already-present member is a no-op). -/
def registerRemoval (m : RemovalMap) (q : List Nat) (t : Nat) : RemovalMap :=
  match m with
  | [] => [(q, [t])]
  | e :: rest =>
    if e.1 = q then (e.1, if e.2.contains t then e.2 else e.2 ++ [t]) :: rest
    else e :: registerRemoval rest q t

/-- `cleanupElementRemovals` (lines 66-74): invoke every teardown registered for the
element and delete its entry; absent entry means nothing happens. Returns the list
of invoked teardowns (in set-insertion order) with the updated map. -/
def cleanupElementRemovals (m : RemovalMap) (q : List Nat) : List Nat × RemovalMap :=
  match lookupRemovals m q with
  | some removalSet => (removalSet, eraseRemovals m q)
  | none => ([], m)

/-! ## Attribute parsing and validation (lines 103-149) -/

/-- Validation / parse errors thrown (as `new Error(message)`) by `applyPlugins`;
each constructor carries the data interpolated into the source's message (the
stringified regexp list of line 108-110 is host-regex output and not carried). -/
inductive DsError where
  | tagNotAllowed (tagName dsKey : String)
  | mustHaveEmptyKey (dsKey : String)
  | mustNotEmptyKey (dsKey : String)
  | modifierNotAllowed (label : String)
  | mustHaveEmptyExpr (dsKey : String)
  | mustNotEmptyExpr (dsKey : String)
deriving Repr, DecidableEq

/-- Line 116: `keyRaw = dsKey.slice(p.prefix.length)`. -/
def parsedKeyRaw (p : AttributePlugin) (dsKey : String) : String :=
  strDrop dsKey (strLength p.pfx)

/-- Line 117: `keyRaw.split('.')` (nonempty). -/
def parsedParts (p : AttributePlugin) (dsKey : String) : List String :=
  splitOnChar '.' (parsedKeyRaw p dsKey)

/-- Line 117: the destructured `key` (pre-lowercasing). -/
def parsedKey0 (p : AttributePlugin) (dsKey : String) : String :=
  (parsedParts p dsKey).headD ""

/-- Lines 128-131: each modifier token `m` splits on `'_'` into label and args. -/
def parseModifier (m : String) : String × List String :=
  match splitOnChar '_' m with
  | [] => ("", [])
  | l :: args => (l, args)

/-- Lines 128-131: the parsed modifier array of the attribute. -/
def parsedModifiersArr (p : AttributePlugin) (dsKey : String) :
    List (String × List String) :=
  (parsedParts p dsKey).tail.map parseModifier

/-- Lines 132-138: the first parsed modifier whose label is outside the
allow-list (the loop throws on the first such), `none` when the list is allowed
or no allow-list is declared. -/
def badModifierOf (p : AttributePlugin) (dsKey : String) :
    Option (String × List String) :=
  match p.allowedModifiers with
  | some allowed => (parsedModifiersArr p dsKey).find? (fun m => !(allowed.contains m.1))
  | none => none

/-- Lines 103-149 for one matching attribute occurrence: tag allow-list check,
key destructuring and emptiness checks, first-character lowercasing, modifier
parsing and allow-list check, expression emptiness checks. Returns the final
`key` and modifier list, or the first error thrown. The `expression` here is the
raw attribute value: preprocessing runs only after these checks (line 151). -/
def validateAndParse (p : AttributePlugin) (tagName dsKey expression : String) :
    Except DsError (String × List (String × List String)) :=
  let tagOk : Bool :=
    match p.allowedTagRegexps with
    | some rs => rs.any (fun r => r (strToLower tagName))
    | none => true
  if !tagOk then Except.error (DsError.tagNotAllowed tagName dsKey)
  else
    let key0 := parsedKey0 p dsKey
    if p.mustHaveEmptyKey && !(strLength key0 == 0) then
      Except.error (DsError.mustHaveEmptyKey dsKey)
    else if p.mustNotEmptyKey && (strLength key0 == 0) then
      Except.error (DsError.mustNotEmptyKey dsKey)
    else
      let key := if !(strLength key0 == 0) then lowerFirst key0 else key0
      let modifiersArr := parsedModifiersArr p dsKey
      match badModifierOf p dsKey with
      | some m => Except.error (DsError.modifierNotAllowed m.1)
      | none =>
        if p.mustHaveEmptyExpression && !(strLength expression == 0) then
          Except.error (DsError.mustHaveEmptyExpr dsKey)
        else if p.mustNotEmptyExpression && (strLength expression == 0) then
          Except.error (DsError.mustNotEmptyExpr dsKey)
        else Except.ok (key, modifiersArr)

/-! ## Preprocessor pipeline (lines 86, 101, 151-164) -/

/-- The loop of lines 152-164 over `[...CorePreprocessors, ...(p.preprocessors || [])]`.
`applied` is the `appliedProcessors` set (it was `clear()`ed at line 101, so each
attribute occurrence starts from `[]`). Returns the rewritten expression, the final
set, and the identities of the preprocessors whose rewrite actually ran, in order. -/
def runPreprocessors : List Preprocesser → List Nat → String → String × List Nat × List Nat
  | [], applied, expr => (expr, applied, [])
  | proc :: rest, applied, expr =>
    if proc.pid ∈ applied then runPreprocessors rest applied expr
    else
      let r := runPreprocessors rest (applied ++ [proc.pid]) (proc.rewrite expr)
      (r.1, r.2.1, proc.pid :: r.2.2)

/-- Lines 185-187: split on `';'`, rewrite the last statement to a `return`,
rejoin — the `fnContent` handed to `new Function('ctx', fnContent)`. -/
def fnContent (expression : String) : String :=
  let lines := splitOnChar ';' expression
  joinWithChar ';' (lines.dropLast ++ ["return " ++ (lines.getLast?.getD "")])

/-! ## The dispatcher (applyPlugins, lines 85-208) -/

/-- Dispatcher state threaded through a dispatch: the `Datastar` instance fields
the dispatcher mutates (`missingIDNext`, `parentID` — read-only in the source —
and the removal registry). `store`/`actions`/`refs`/`reactivity` are external
collaborators that never influence the control flow modelled here. -/
structure DsRunState where
  missingIDNext : Nat
  parentID : String
  removals : RemovalMap

/-- External inputs of a dispatch that are not part of the repository's sources:
the core-wide preprocessor list (`CorePreprocessors`, imported from `plugins/core`)
and the host's expression compiler (`new Function`) success oracle. -/
structure DispatchEnv where
  coreProcs : List Preprocesser
  compiles : String → Bool

/-- Generated id `` `ds-${parentID}-${missingIDNext++}` `` (line 98). -/
def dsId (parentID : String) (n : Nat) : String :=
  "ds-" ++ parentID ++ "-" ++ toString n

/-- Observable events of a dispatch, in order:
* `flush pi q fired` — `cleanupElementRemovals` ran for the element at path `q`
  during plugin pass `pi`, invoking the teardowns `fired` (line 90);
* `idAssign q n` — the element at `q` received the generated id with counter `n`
  (lines 97-99);
* `attrOk pi q dsKey` — the occurrence `dsKey` on the element at `q` completed
  (its `onLoad` ran, line 198);
* `logErr pi q ident txt` — the compile failure log of lines 192-193, with the
  element identity `ident` (`#id`, or the tag name for an id-less element) and
  the offending `fnContent` text. -/
inductive DsEvent where
  | flush (pi : Nat) (path : List Nat) (fired : List Nat)
  | idAssign (path : List Nat) (n : Nat)
  | attrOk (pi : Nat) (path : List Nat) (dsKey : String)
  | logErr (pi : Nat) (path : List Nat) (ident : String) (txt : String)
deriving Repr, DecidableEq

/-- Lines 97-99: the element's id after the missing-id assignment for a matching
attribute (unchanged when nonempty). -/
def missingIdAssignedId (id : String) (st : DsRunState) : String :=
  if strLength id == 0 then dsId st.parentID st.missingIDNext else id

/-- Lines 97-99: the dispatcher state after the missing-id assignment
(`this.missingIDNext++`). -/
def missingIdAssignedState (id : String) (st : DsRunState) : DsRunState :=
  if strLength id == 0 then { st with missingIDNext := st.missingIDNext + 1 } else st

/-- The id-assignment event, when one happens. -/
def missingIdAssignedTr (q : List Nat) (id : String) (st : DsRunState) : List DsEvent :=
  if strLength id == 0 then [DsEvent.idAssign q st.missingIDNext] else []

/-- Lines 166-182: the context (external handles omitted; see `AttributeContext`). -/
def mkCtx (q : List Nat) (id1 tagName key expression2 : String)
    (modifiers : List (String × List String)) : AttributeContext :=
  { elPath := q, elId := id1, elTag := tagName, key := key,
    expression := expression2, modifiers := modifiers }

/-- The line 184 guard `!p.bypassExpressionFunctionCreation?.(ctx)
&& !p.mustHaveEmptyExpression && expression.length` combined with the `try` of
lines 188-195: true exactly when an expression function is to be created and
`new Function` throws. -/
def compileFails (env : DispatchEnv) (p : AttributePlugin) (ctx : AttributeContext) :
    Bool :=
  (match p.bypassExpressionFunctionCreation with
   | some f => !(f ctx)
   | none => true)
  && !p.mustHaveEmptyExpression && !(strLength ctx.expression == 0)
  && !(env.compiles (fnContent ctx.expression))

/-- Lines 198-204: run `onLoad` and register the returned teardown, if any, under
the element's identity. -/
def registerOnLoad (p : AttributePlugin) (q : List Nat) (ctx : AttributeContext)
    (st1 : DsRunState) : DsRunState :=
  match p.onLoad ctx with
  | some t => { st1 with removals := registerRemoval st1.removals q t }
  | none => st1

/-- The `for (const dsKey in el.dataset)` loop (lines 92-205) of one element visit
during one plugin pass. Arguments: the element's path `q`, tag name, its current
`id` and the dispatcher state; returns the element's final id, the state, and the
emitted events — or the first thrown validation error. A caught compile failure
logs and `return`s out of the per-element callback (line 194), abandoning the
remaining `dataset` entries of this element for this pass. -/
def processAttrs (env : DispatchEnv) (p : AttributePlugin) (pi : Nat) (q : List Nat)
    (tagName : String) :
    List (String × String) → String → DsRunState →
    Except DsError (String × DsRunState × List DsEvent)
  | [], id, st => Except.ok (id, st, [])
  | (dsKey, value) :: rest, id, st =>
    -- line 93: `el.dataset[dsKey] || ''` (dataset values are strings already)
    let expression := value
    if !(strStartsWith dsKey p.pfx) then
      -- line 95: `continue`
      processAttrs env p pi q tagName rest id st
    else
      -- lines 97-99: missing-id assignment
      let id1 := missingIdAssignedId id st
      let st1 := missingIdAssignedState id st
      let trId := missingIdAssignedTr q id st
      -- line 101 (`appliedProcessors.clear()`) makes preprocessing below start
      -- from the empty applied set
      match validateAndParse p tagName dsKey expression with
      | Except.error e => Except.error e
      | Except.ok (key, modifiers) =>
        -- lines 151-164
        let expression2 :=
          (runPreprocessors (env.coreProcs ++ p.preprocessors) [] expression).1
        let ctx := mkCtx q id1 tagName key expression2 modifiers
        if compileFails env p ctx then
          -- lines 188-195: catch, log, `return` (remaining dataset keys skipped)
          Except.ok (id1, st1, trId ++
            [DsEvent.logErr pi q
              (if strLength id1 == 0 then tagName else "#" ++ id1)
              (fnContent expression2)])
        else
          match processAttrs env p pi q tagName rest id1 (registerOnLoad p q ctx st1) with
          | Except.error e => Except.error e
          | Except.ok (idF, stF, trF) =>
            Except.ok (idF, stF, trId ++ [DsEvent.attrOk pi q dsKey] ++ trF)

/-- Line 90: the state after `if (pi === 0) this.cleanupElementRemovals(el)`. -/
def flushedState (pi : Nat) (q : List Nat) (st : DsRunState) : DsRunState :=
  if pi = 0 then { st with removals := (cleanupElementRemovals st.removals q).2 }
  else st

/-- Line 90: the flush event, emitted only on the first plugin's pass. -/
def flushedTr (pi : Nat) (q : List Nat) (st : DsRunState) : List DsEvent :=
  if pi = 0 then [DsEvent.flush pi q (cleanupElementRemovals st.removals q).1]
  else []

mutual
/-- One plugin pass's visit of an element subtree (`walkDownDOM` with the callback
of lines 89-205): flush the removal registry if this is the first plugin's pass
(line 90), run the attribute loop, then recurse into the children left-to-right
(lines 217-222). `q` is the element's path from the walk root. -/
def walkPass (env : DispatchEnv) (p : AttributePlugin) (pi : Nat) (q : List Nat)
    (st : DsRunState) : Element → Except DsError (Element × DsRunState × List DsEvent)
  | Element.mk id tagName dataset kids =>
    let flushTr := flushedTr pi q st
    let st0 := flushedState pi q st
    match processAttrs env p pi q tagName dataset id st0 with
    | Except.error e => Except.error e
    | Except.ok (id1, st1, tr1) =>
      match walkKids env p pi q 0 st1 kids with
      | Except.error e => Except.error e
      | Except.ok (kids1, st2, tr2) =>
        Except.ok (Element.mk id1 tagName dataset kids1, st2, flushTr ++ tr1 ++ tr2)

/-- The sibling loop of `walkDownDOM` (lines 218-222); `i` is the next child index. -/
def walkKids (env : DispatchEnv) (p : AttributePlugin) (pi : Nat) (q : List Nat)
    (i : Nat) (st : DsRunState) :
    List Element → Except DsError (List Element × DsRunState × List DsEvent)
  | [] => Except.ok ([], st, [])
  | k :: ks =>
    match walkPass env p pi (q ++ [i]) st k with
    | Except.error e => Except.error e
    | Except.ok (k1, st1, tr1) =>
      match walkKids env p pi q (i + 1) st1 ks with
      | Except.error e => Except.error e
      | Except.ok (ks1, st2, tr2) => Except.ok (k1 :: ks1, st2, tr1 ++ tr2)
end

/-- The `this.plugins.forEach((p, pi) => this.walkDownDOM(rootElement, ...))` loop
of lines 88-207: one full tree walk per plugin, in registration order. -/
def goPasses (env : DispatchEnv) :
    List AttributePlugin → Nat → Element → DsRunState →
    Except DsError (Element × DsRunState × List DsEvent)
  | [], _, t, st => Except.ok (t, st, [])
  | p :: rest, pi, t, st =>
    match walkPass env p pi [] st t with
    | Except.error e => Except.error e
    | Except.ok (t1, st1, tr1) =>
      match goPasses env rest (pi + 1) t1 st1 with
      | Except.error e => Except.error e
      | Except.ok (t2, st2, tr2) => Except.ok (t2, st2, tr1 ++ tr2)

/-- `applyPlugins(rootElement)` (lines 85-208). -/
def applyPlugins (env : DispatchEnv) (plugins : List AttributePlugin) (root : Element)
    (st : DsRunState) : Except DsError (Element × DsRunState × List DsEvent) :=
  goPasses env plugins 0 root st

/-! ## Store replacement (lines 19, 76-79, 166-169, 54-60)

`mergeStore` computes `apply(this.store.value, store)` (the external
`ts-merge-patch`) and rebinds `this.store` to a *fresh* `deepSignal` instance.
Store instances are modelled by identity (`Nat`, allocation order) together with
an abstract value; the merge function itself is an external parameter. A context
built at lines 166-182 copies the *current* `this.store` reference into `ctx.store`
(`const { store, ... } = this`), recorded here by remembering the captured
instance id. -/

/-- Store-instance bookkeeping of the `Datastar` instance: the id of the instance
currently bound to `this.store`, the allocation counter of `deepSignal`, each
allocated instance's (abstract) value, and the instance ids captured by every
context built so far (lines 166-168 and the `onGlobalInit` context of line 59). -/
structure StoreRuntime where
  storeId : Nat
  nextId : Nat
  storeVals : List Nat
  issuedCtxStores : List Nat
deriving Repr, DecidableEq

/-- `mergeStore` (lines 76-79): `revisedStore = apply(this.store.value, store)`;
`this.store = deepSignal(revisedStore)` allocates a fresh instance. The previously
allocated instances (and every captured reference) are untouched. -/
def mergeStore (applyPatch : Nat → Nat → Nat) (patch : Nat) (rt : StoreRuntime) :
    StoreRuntime :=
  { storeId := rt.nextId
    nextId := rt.nextId + 1
    storeVals := rt.storeVals ++ [applyPatch (rt.storeVals.getD rt.storeId 0) patch]
    issuedCtxStores := rt.issuedCtxStores }

/-- Building an attribute context (lines 166-168): `const { store, ... } = this`
copies the current store reference into the context. -/
def buildContextStore (rt : StoreRuntime) : StoreRuntime :=
  { rt with issuedCtxStores := rt.issuedCtxStores ++ [rt.storeId] }

/-- Well-formedness: the allocation counter covers the value table, the bound
store and all captured references. -/
def StoreWF (rt : StoreRuntime) : Prop :=
  rt.nextId = rt.storeVals.length ∧ rt.storeId < rt.nextId ∧
    ∀ c ∈ rt.issuedCtxStores, c < rt.nextId

/-! ## Validation-order predicates (for the §4.3 ordering claims) -/

/-- The attribute's tag-allow-list check fails (lines 103-114). -/
def tagViolated (p : AttributePlugin) (tagName : String) : Bool :=
  match p.allowedTagRegexps with
  | some rs => !(rs.any (fun r => r (strToLower tagName)))
  | none => false

/-- The attribute violates the plugin's key-emptiness requirement (lines 118-123). -/
def keyViolated (p : AttributePlugin) (dsKey : String) : Bool :=
  (p.mustHaveEmptyKey && !(strLength (parsedKey0 p dsKey) == 0))
    || (p.mustNotEmptyKey && (strLength (parsedKey0 p dsKey) == 0))

/-- Some parsed modifier label is outside the allow-list (lines 132-138). -/
def modifierViolated (p : AttributePlugin) (dsKey : String) : Bool :=
  match p.allowedModifiers with
  | some allowed => (parsedModifiersArr p dsKey).any (fun m => !(allowed.contains m.1))
  | none => false

/-- The attribute violates the plugin's expression-emptiness requirement
(lines 144-149). -/
def exprViolated (p : AttributePlugin) (expression : String) : Bool :=
  (p.mustHaveEmptyExpression && !(strLength expression == 0))
    || (p.mustNotEmptyExpression && (strLength expression == 0))

def isTagError : Except DsError (String × List (String × List String)) → Bool
  | Except.error (DsError.tagNotAllowed _ _) => true
  | _ => false

def isKeyError : Except DsError (String × List (String × List String)) → Bool
  | Except.error (DsError.mustHaveEmptyKey _) => true
  | Except.error (DsError.mustNotEmptyKey _) => true
  | _ => false

def isModifierError : Except DsError (String × List (String × List String)) → Bool
  | Except.error (DsError.modifierNotAllowed _) => true
  | _ => false

def isExprError : Except DsError (String × List (String × List String)) → Bool
  | Except.error (DsError.mustHaveEmptyExpr _) => true
  | Except.error (DsError.mustNotEmptyExpr _) => true
  | _ => false

/-! ## Tree and trace observations -/

/-- The element reached by a path of child indices. -/
def elementAt : Element → List Nat → Option Element
  | el, [] => some el
  | el, i :: r =>
    match (Element.children el).get? i with
    | some k => elementAt k r
    | none => none

/-- The id of the element at a path. -/
def idAt (t : Element) (r : List Nat) : Option String :=
  (elementAt t r).map Element.id

mutual
/-- All element paths of a tree, root first, in walk (preorder) order. -/
def elementPaths : Element → List (List Nat)
  | .mk _ _ _ kids => [] :: kidsPaths 0 kids

/-- Paths into the `i`-th and later children. -/
def kidsPaths : Nat → List Element → List (List Nat)
  | _, [] => []
  | i, k :: ks => (elementPaths k).map (fun r => i :: r) ++ kidsPaths (i + 1) ks
end

mutual
/-- The tree with every id blanked: the walk can change ids (lines 97-99) but
nothing else, so `stripId`-equality captures structure preservation. -/
def stripId : Element → Element
  | .mk _ t d kids => .mk "" t d (stripIds kids)

def stripIds : List Element → List Element
  | [] => []
  | k :: ks => stripId k :: stripIds ks
end

/-- The path an event is about. -/
def eventPath : DsEvent → List Nat
  | .flush _ r _ => r
  | .idAssign r _ => r
  | .attrOk _ r _ => r
  | .logErr _ r _ _ => r

/-- Whether an event is a registry flush. -/
def isFlushEvent : DsEvent → Bool
  | .flush _ _ _ => true
  | _ => false

/-- A flush of the element at path `r`. -/
def eventIsFlushAt (r : List Nat) (ev : DsEvent) : Bool :=
  isFlushEvent ev && (eventPath ev = r : Bool)

/-- A non-flush (attribute-processing) event about the element at path `r`. -/
def eventIsProcAt (r : List Nat) (ev : DsEvent) : Bool :=
  !(isFlushEvent ev) && (eventPath ev = r : Bool)

/-- No attribute-processing event for the element at `r` occurs in the trace
before the first flush of `r` (everything after that first flush is
unconstrained). -/
def noAttrBeforeFlush (r : List Nat) : List DsEvent → Prop
  | [] => True
  | ev :: rest =>
    if eventIsFlushAt r ev then True
    else (eventIsProcAt r ev = false) ∧ noAttrBeforeFlush r rest

/-- The counters of the generated-id assignments of a trace, in order. -/
def assignedNats (tr : List DsEvent) : List Nat :=
  tr.filterMap (fun ev => match ev with
    | DsEvent.idAssign _ n => some n
    | _ => none)

/-- Whether an event is the compile-failure log of lines 192-193. -/
def isLogErr : DsEvent → Bool
  | .logErr _ _ _ _ => true
  | _ => false

/-- Whether an `Except` result is a normal return (no thrown error). -/
def exceptIsOk {e a : Type} : Except e a → Bool
  | Except.ok _ => true
  | Except.error _ => false

/-- Every prefix-matching entry of a dataset passes the validations of
lines 103-149 (so processing it can only skip, succeed, or be abandoned by a
caught compile failure — never throw). -/
def attrsValidate (p : AttributePlugin) (tagName : String)
    (ds : List (String × String)) : Bool :=
  ds.all (fun kv =>
    !(strStartsWith kv.1 p.pfx) || exceptIsOk (validateAndParse p tagName kv.1 kv.2))

mutual
/-- Every prefix-matching attribute in the tree passes validation. -/
def treeValidates (p : AttributePlugin) : Element → Bool
  | .mk _ tagName ds kids => attrsValidate p tagName ds && kidsValidate p kids

def kidsValidate (p : AttributePlugin) : List Element → Bool
  | [] => true
  | k :: ks => treeValidates p k && kidsValidate p ks
end

/-! ## Concrete inputs for witnesses and counterexamples -/

/-- A dependent plugin: requires prefix `"a"`. -/
def depPluginB : AttributePlugin :=
  { pfx := "b", requiredPluginPrefixes := some ["a"] }

/-- The provider plugin for `depPluginB`. -/
def depPluginA : AttributePlugin := { pfx := "a" }

/-- Two plugins sharing the prefix `"foo"`. -/
def dupPluginA : AttributePlugin := { pfx := "foo" }

/-- Second plugin with prefix `"foo"` (distinct flags, same prefix). -/
def dupPluginB : AttributePlugin := { pfx := "foo", mustNotEmptyKey := true }

/-- A plugin whose key requirement and tag allow-list can both be violated at
once: key must be non-empty, tag must be `input`. -/
def tagKeyPlugin : AttributePlugin :=
  { pfx := "f", mustNotEmptyKey := true,
    allowedTagRegexps := some [fun t => t == "input"] }

/-- Key-requirement-only plugin. -/
def keyOnlyPlugin : AttributePlugin := { pfx := "f", mustNotEmptyKey := true }

/-- Modifier-allow-list-only plugin. -/
def modOnlyPlugin : AttributePlugin := { pfx := "f", allowedModifiers := some ["m"] }

/-- Expression-requirement-only plugin. -/
def exprOnlyPlugin : AttributePlugin := { pfx := "f", mustNotEmptyExpression := true }

/-- A plain plugin with prefix `"f"` and no restrictions. -/
def plainPlugin : AttributePlugin := { pfx := "f" }

/-- Environment with no core preprocessors and a compiler that rejects exactly
the text `"return ("` (the compilation of the expression `"("`). -/
def parenEnv : DispatchEnv := ⟨[], fun s => !(s == "return (")⟩

/-- Initial dispatcher state (fields of lines 27-29). -/
def initState : DsRunState := { missingIDNext := 0, parentID := "", removals := [] }

/-- Element with a failing-then-fine attribute pair and one child carrying a
matching attribute. -/
def badPairTree : Element :=
  .mk "x1" "d" [("fa", "("), ("fb", "1")] [.mk "" "d" [("fc", "2")] []]

/-- Small two-element tree with matching attributes and no preset ids. -/
def smallTree : Element := .mk "" "d" [("fa", "1")] [.mk "k" "d" [("fb", "2")] []]

/-- `elementAt` through a child list: the element at path `j :: s` of a node whose
children are `ks`. -/
def elAtL (ks : List Element) (j : Nat) (s : List Nat) : Option Element :=
  match ks.get? j with
  | some k => elementAt k s
  | none => none

/-- `idAt` through a child list. -/
def idAtL (ks : List Element) (j : Nat) (s : List Nat) : Option String :=
  (elAtL ks j s).map Element.id

/-! ## Basic lemmas -/

theorem strLength_eq_zero_iff (s : String) : strLength s = 0 ↔ s = "" := by
  constructor
  · intro h
    cases s with
    | mk data =>
      cases data with
      | nil => rfl
      | cons c cs => simp [strLength] at h
  · intro h; subst h; rfl

theorem strLength_dsId (parentID : String) (n : Nat) :
    strLength (dsId parentID n) = 0 → False := by
  intro h
  have : (dsId parentID n).data = ("ds-".data ++ parentID.data) ++
      ("-".data ++ (toString n).data) := by
    simp [dsId, String.instAppend, String.append]
  rw [strLength, this] at h
  simp at h

theorem lookupRemovals_erase_self (m : RemovalMap) (q : List Nat) :
    lookupRemovals (eraseRemovals m q) q = none := by
  induction m with
  | nil => rfl
  | cons e rest ih =>
    by_cases h : e.1 = q
    · simpa [eraseRemovals, h] using ih
    · simpa [eraseRemovals, lookupRemovals, h] using ih

theorem lookupRemovals_erase_other (m : RemovalMap) (q r : List Nat) (h : r ≠ q) :
    lookupRemovals (eraseRemovals m q) r = lookupRemovals m r := by
  have hqr : ¬ q = r := fun hh => h hh.symm
  induction m with
  | nil => rfl
  | cons e rest ih =>
    by_cases he : e.1 = q
    · have hr : ¬ e.1 = r := by rw [he]; exact hqr
      simpa [eraseRemovals, he, lookupRemovals, hr, hqr] using ih
    · by_cases her : e.1 = r
      · simp [eraseRemovals, he, lookupRemovals, her, h]
      · simpa [eraseRemovals, he, lookupRemovals, her] using ih

theorem lookupRemovals_register_other (m : RemovalMap) (q r : List Nat) (t : Nat)
    (h : r ≠ q) : lookupRemovals (registerRemoval m q t) r = lookupRemovals m r := by
  have hqr : ¬ q = r := fun hh => h hh.symm
  induction m with
  | nil =>
    simp [registerRemoval, lookupRemovals, hqr]
  | cons e rest ih =>
    by_cases he : e.1 = q
    · have hr : ¬ e.1 = r := by rw [he]; exact hqr
      simp [registerRemoval, he, lookupRemovals, hr, hqr]
    · by_cases her : e.1 = r
      · simp [registerRemoval, he, lookupRemovals, her, h]
      · simpa [registerRemoval, he, lookupRemovals, her] using ih

theorem rangeAppend (k1 : Nat) : ∀ (a k2 : Nat),
    List.range' a k1 ++ List.range' (a + k1) k2 = List.range' a (k1 + k2) := by
  induction k1 with
  | zero => intro a k2; simp [List.range']
  | succ k ih =>
    intro a k2
    have h1 : List.range' a (k + 1) = a :: List.range' (a + 1) k := rfl
    have h2 : List.range' a (k + 1 + k2) = a :: List.range' (a + 1) (k + k2) := by
      have : k + 1 + k2 = (k + k2) + 1 := by omega
      rw [this]; rfl
    rw [h1, h2, List.cons_append, show a + (k + 1) = (a + 1) + k by omega, ih]

theorem pathNeOfIndexNe (q : List Nat) (i j : Nat) (s t : List Nat) (h : i ≠ j) :
    q ++ i :: s ≠ q ++ j :: t := by
  intro he
  have := List.append_cancel_left he
  simp at this
  exact h this.1

theorem appendConsPath (q : List Nat) (i : Nat) (s : List Nat) :
    (q ++ [i]) ++ s = q ++ i :: s := by simp

theorem kidsPaths_shape : ∀ (ks : List Element) (i : Nat) (s : List Nat),
    s ∈ kidsPaths i ks → ∃ j s', s = j :: s' ∧ i ≤ j := by
  intro ks
  induction ks with
  | nil => intro i s h; simp [kidsPaths] at h
  | cons k rest ih =>
    intro i s h
    simp only [kidsPaths, List.mem_append, List.mem_map] at h
    rcases h with ⟨s', _, rfl⟩ | h
    · exact ⟨i, s', rfl, Nat.le_refl i⟩
    · rcases ih (i + 1) s h with ⟨j, s', rfl, hj⟩
      exact ⟨j, s', rfl, by omega⟩

theorem nabf_of_all_notProc (r : List Nat) : ∀ (l₁ l₂ : List DsEvent),
    (∀ ev ∈ l₁, eventIsProcAt r ev = false) → noAttrBeforeFlush r l₂ →
    noAttrBeforeFlush r (l₁ ++ l₂) := by
  intro l₁
  induction l₁ with
  | nil => intro l₂ _ h2; simpa using h2
  | cons ev rest ih =>
    intro l₂ h1 h2
    by_cases hf : eventIsFlushAt r ev
    · rw [List.cons_append]
      simp only [noAttrBeforeFlush]
      rw [if_pos hf]
      trivial
    · rw [List.cons_append]
      simp only [noAttrBeforeFlush]
      rw [if_neg hf]
      exact ⟨h1 ev (by simp), ih l₂ (fun e he => h1 e (by simp [he])) h2⟩

theorem nabf_of_flush_mem (r : List Nat) : ∀ (l₁ l₂ : List DsEvent),
    noAttrBeforeFlush r l₁ → (∃ ev ∈ l₁, eventIsFlushAt r ev = true) →
    noAttrBeforeFlush r (l₁ ++ l₂) := by
  intro l₁
  induction l₁ with
  | nil => intro l₂ _ h; simp at h
  | cons ev rest ih =>
    intro l₂ h1 h2
    by_cases hf : eventIsFlushAt r ev
    · rw [List.cons_append]
      simp only [noAttrBeforeFlush]
      rw [if_pos hf]
      trivial
    · rw [List.cons_append]
      simp only [noAttrBeforeFlush]
      rw [if_neg hf]
      simp only [noAttrBeforeFlush] at h1
      rw [if_neg hf] at h1
      rcases h2 with ⟨ev', hmem, hev'⟩
      rcases List.mem_cons.mp hmem with rfl | hmem'
      · exact absurd hev' hf
      · exact ⟨h1.1, ih l₂ h1.2 ⟨ev', hmem', hev'⟩⟩

theorem nabf_nil (r : List Nat) : noAttrBeforeFlush r [] := trivial

theorem stripIds_get? : ∀ (ks : List Element) (i : Nat),
    (stripIds ks).get? i = (ks.get? i).map stripId := by
  intro ks
  induction ks with
  | nil => intro i; simp [stripIds]
  | cons k rest ih =>
    intro i
    cases i with
    | zero => simp [stripIds]
    | succ j => simpa [stripIds] using ih j

theorem stripId_dataset (e : Element) : (stripId e).dataset = e.dataset := by
  cases e; rfl

theorem stripId_tagName (e : Element) : (stripId e).tagName = e.tagName := by
  cases e; rfl

theorem elementAt_stripId_congr : ∀ (r : List Nat) (t1 t2 : Element),
    stripId t1 = stripId t2 →
    Option.map stripId (elementAt t1 r) = Option.map stripId (elementAt t2 r) := by
  intro r
  induction r with
  | nil => intro t1 t2 h; simpa [elementAt] using h
  | cons i s ih =>
    intro t1 t2 h
    cases t1 with
    | mk id1 tag1 d1 k1 =>
      cases t2 with
      | mk id2 tag2 d2 k2 =>
        simp only [stripId, Element.mk.injEq] at h
        have hk : (stripIds k1).get? i = (stripIds k2).get? i := by rw [h.2.2.2]
        rw [stripIds_get?, stripIds_get?] at hk
        simp only [elementAt, Element.children]
        cases h1 : k1.get? i with
        | none =>
          cases h2 : k2.get? i with
          | none => simp
          | some b => rw [h1, h2] at hk; simp at hk
        | some a =>
          cases h2 : k2.get? i with
          | none => rw [h1, h2] at hk; simp at hk
          | some b =>
            rw [h1, h2] at hk
            simp only [Option.map_some'] at hk
            injection hk with hk
            exact ih a b hk

mutual
theorem elementPaths_stripId : ∀ (t : Element), elementPaths (stripId t) = elementPaths t
  | .mk _ _ _ kids => by
    show [] :: kidsPaths 0 (stripIds kids) = [] :: kidsPaths 0 kids
    rw [kidsPaths_stripIds 0 kids]

theorem kidsPaths_stripIds : ∀ (i : Nat) (ks : List Element),
    kidsPaths i (stripIds ks) = kidsPaths i ks
  | _, [] => rfl
  | i, k :: ks => by
    show (elementPaths (stripId k)).map (fun r => i :: r) ++ kidsPaths (i + 1) (stripIds ks)
        = (elementPaths k).map (fun r => i :: r) ++ kidsPaths (i + 1) ks
    rw [elementPaths_stripId k, kidsPaths_stripIds (i + 1) ks]
end

/-! ## Lemmas about the attribute-loop building blocks -/

theorem missingIdAssignedState_parentID (id : String) (st : DsRunState) :
    (missingIdAssignedState id st).parentID = st.parentID := by
  unfold missingIdAssignedState; split <;> rfl

theorem missingIdAssignedState_removals (id : String) (st : DsRunState) :
    (missingIdAssignedState id st).removals = st.removals := by
  unfold missingIdAssignedState; split <;> rfl

theorem missingIdAssignedState_missingIDNext (id : String) (st : DsRunState) :
    (missingIdAssignedState id st).missingIDNext
      = st.missingIDNext + (if strLength id == 0 then 1 else 0) := by
  unfold missingIdAssignedState; split <;> simp_all

theorem missingIdAssignedTr_assignedNats (q : List Nat) (id : String) (st : DsRunState) :
    assignedNats (missingIdAssignedTr q id st)
      = List.range' st.missingIDNext (if strLength id == 0 then 1 else 0) := by
  unfold missingIdAssignedTr
  split <;> simp_all [assignedNats, List.range']

theorem missingIdAssignedTr_paths (q : List Nat) (id : String) (st : DsRunState) :
    ∀ ev ∈ missingIdAssignedTr q id st, eventPath ev = q ∧ isFlushEvent ev = false := by
  unfold missingIdAssignedTr
  split <;> simp_all [eventPath, isFlushEvent]

theorem missingIdAssignedId_of_ne (id : String) (st : DsRunState)
    (h : ¬ strLength id = 0) : missingIdAssignedId id st = id := by
  unfold missingIdAssignedId
  simp [h]

theorem missingIdAssignedId_of_eq (id : String) (st : DsRunState)
    (h : strLength id = 0) : missingIdAssignedId id st = dsId st.parentID st.missingIDNext := by
  unfold missingIdAssignedId
  simp [h]

theorem registerOnLoad_parentID (p : AttributePlugin) (q : List Nat)
    (ctx : AttributeContext) (st : DsRunState) :
    (registerOnLoad p q ctx st).parentID = st.parentID := by
  unfold registerOnLoad; split <;> rfl

theorem registerOnLoad_missingIDNext (p : AttributePlugin) (q : List Nat)
    (ctx : AttributeContext) (st : DsRunState) :
    (registerOnLoad p q ctx st).missingIDNext = st.missingIDNext := by
  unfold registerOnLoad; split <;> rfl

theorem registerOnLoad_removals_other (p : AttributePlugin) (q : List Nat)
    (ctx : AttributeContext) (st : DsRunState) (r : List Nat) (h : r ≠ q) :
    lookupRemovals (registerOnLoad p q ctx st).removals r
      = lookupRemovals st.removals r := by
  unfold registerOnLoad
  split
  · exact lookupRemovals_register_other _ _ _ _ h
  · rfl

/-! ## Lemmas about processAttrs -/

theorem processAttrs_parentID (env : DispatchEnv) (p : AttributePlugin) (pi : Nat)
    (q : List Nat) (tagName : String) :
    ∀ (ds : List (String × String)) (id : String) (st : DsRunState)
      (idF : String) (stF : DsRunState) (trF : List DsEvent),
      processAttrs env p pi q tagName ds id st = Except.ok (idF, stF, trF) →
      stF.parentID = st.parentID := by
  intro ds
  induction ds with
  | nil =>
    intro id st idF stF trF h
    simp only [processAttrs, Except.ok.injEq, Prod.mk.injEq] at h
    rw [← h.2.1]
  | cons a rest ih =>
    intro id st idF stF trF h
    obtain ⟨dsKey, value⟩ := a
    simp only [processAttrs] at h
    split at h
    · exact ih _ _ _ _ _ h
    · split at h
      · exact absurd h (by simp)
      · split at h
        · simp only [Except.ok.injEq, Prod.mk.injEq] at h
          rw [← h.2.1, missingIdAssignedState_parentID]
        · split at h
          · exact absurd h (by simp)
          · next idF' stF' trF' heq2 =>
            simp only [Except.ok.injEq, Prod.mk.injEq] at h
            rw [← h.2.1]
            have hrec := ih _ _ _ _ _ heq2
            rw [hrec, registerOnLoad_parentID, missingIdAssignedState_parentID]

theorem processAttrs_paths (env : DispatchEnv) (p : AttributePlugin) (pi : Nat)
    (q : List Nat) (tagName : String) :
    ∀ (ds : List (String × String)) (id : String) (st : DsRunState)
      (idF : String) (stF : DsRunState) (trF : List DsEvent),
      processAttrs env p pi q tagName ds id st = Except.ok (idF, stF, trF) →
      ∀ ev ∈ trF, eventPath ev = q ∧ isFlushEvent ev = false := by
  intro ds
  induction ds with
  | nil =>
    intro id st idF stF trF h
    simp only [processAttrs, Except.ok.injEq, Prod.mk.injEq] at h
    rw [← h.2.2]
    simp
  | cons a rest ih =>
    intro id st idF stF trF h
    obtain ⟨dsKey, value⟩ := a
    simp only [processAttrs] at h
    split at h
    · exact ih _ _ _ _ _ h
    · split at h
      · exact absurd h (by simp)
      · split at h
        · simp only [Except.ok.injEq, Prod.mk.injEq] at h
          rw [← h.2.2]
          intro ev hev
          rcases List.mem_append.mp hev with hev1 | hev2
          · exact missingIdAssignedTr_paths _ _ _ ev hev1
          · simp at hev2
            subst hev2
            simp [eventPath, isFlushEvent]
        · split at h
          · exact absurd h (by simp)
          · next idF' stF' trF' heq2 =>
            simp only [Except.ok.injEq, Prod.mk.injEq] at h
            rw [← h.2.2]
            intro ev hev
            rcases List.mem_append.mp hev with hev1 | hev2
            · rcases List.mem_append.mp hev1 with hev11 | hev12
              · exact missingIdAssignedTr_paths _ _ _ ev hev11
              · simp at hev12
                subst hev12
                simp [eventPath, isFlushEvent]
            · exact ih _ _ _ _ _ heq2 ev hev2

theorem processAttrs_removals_other (env : DispatchEnv) (p : AttributePlugin) (pi : Nat)
    (q : List Nat) (tagName : String) :
    ∀ (ds : List (String × String)) (id : String) (st : DsRunState)
      (idF : String) (stF : DsRunState) (trF : List DsEvent),
      processAttrs env p pi q tagName ds id st = Except.ok (idF, stF, trF) →
      ∀ r, r ≠ q → lookupRemovals stF.removals r = lookupRemovals st.removals r := by
  intro ds
  induction ds with
  | nil =>
    intro id st idF stF trF h
    simp only [processAttrs, Except.ok.injEq, Prod.mk.injEq] at h
    rw [← h.2.1]
    intro r _; rfl
  | cons a rest ih =>
    intro id st idF stF trF h
    obtain ⟨dsKey, value⟩ := a
    simp only [processAttrs] at h
    split at h
    · exact ih _ _ _ _ _ h
    · split at h
      · exact absurd h (by simp)
      · split at h
        · simp only [Except.ok.injEq, Prod.mk.injEq] at h
          rw [← h.2.1]
          intro r _
          rw [missingIdAssignedState_removals]
        · split at h
          · exact absurd h (by simp)
          · next idF' stF' trF' heq2 =>
            simp only [Except.ok.injEq, Prod.mk.injEq] at h
            rw [← h.2.1]
            intro r hr
            rw [ih _ _ _ _ _ heq2 r hr, registerOnLoad_removals_other _ _ _ _ _ hr,
              missingIdAssignedState_removals]

theorem assignedNats_append (a b : List DsEvent) :
    assignedNats (a ++ b) = assignedNats a ++ assignedNats b := by
  simp [assignedNats]

theorem assignedNats_logErr (pi : Nat) (q : List Nat) (i t : String) :
    assignedNats [DsEvent.logErr pi q i t] = [] := rfl

theorem assignedNats_attrOk (pi : Nat) (q : List Nat) (k : String) :
    assignedNats [DsEvent.attrOk pi q k] = [] := rfl

theorem assignedNats_flush (pi : Nat) (q : List Nat) (f : List Nat) :
    assignedNats [DsEvent.flush pi q f] = [] := rfl

theorem processAttrs_counters (env : DispatchEnv) (p : AttributePlugin) (pi : Nat)
    (q : List Nat) (tagName : String) :
    ∀ (ds : List (String × String)) (id : String) (st : DsRunState)
      (idF : String) (stF : DsRunState) (trF : List DsEvent),
      processAttrs env p pi q tagName ds id st = Except.ok (idF, stF, trF) →
      ∃ k, assignedNats trF = List.range' st.missingIDNext k
        ∧ stF.missingIDNext = st.missingIDNext + k := by
  intro ds
  induction ds with
  | nil =>
    intro id st idF stF trF h
    simp only [processAttrs, Except.ok.injEq, Prod.mk.injEq] at h
    exact ⟨0, by rw [← h.2.2]; rfl, by rw [← h.2.1]; omega⟩
  | cons a rest ih =>
    intro id st idF stF trF h
    obtain ⟨dsKey, value⟩ := a
    simp only [processAttrs] at h
    split at h
    · exact ih _ _ _ _ _ h
    · split at h
      · exact absurd h (by simp)
      · split at h
        · simp only [Except.ok.injEq, Prod.mk.injEq] at h
          refine ⟨if strLength id == 0 then 1 else 0, ?_, ?_⟩
          · rw [← h.2.2, assignedNats_append, assignedNats_logErr, List.append_nil]
            exact missingIdAssignedTr_assignedNats q id st
          · rw [← h.2.1, missingIdAssignedState_missingIDNext]
        · split at h
          · exact absurd h (by simp)
          · next idF' stF' trF' heq2 =>
            simp only [Except.ok.injEq, Prod.mk.injEq] at h
            obtain ⟨k', hn', hc'⟩ := ih _ _ _ _ _ heq2
            rw [registerOnLoad_missingIDNext, missingIdAssignedState_missingIDNext] at hn' hc'
            refine ⟨(if strLength id == 0 then 1 else 0) + k', ?_, ?_⟩
            · rw [← h.2.2, assignedNats_append, assignedNats_append, assignedNats_attrOk,
                List.append_nil, missingIdAssignedTr_assignedNats, hn', rangeAppend]
            · rw [← h.2.1, hc']
              omega

theorem processAttrs_idChange (env : DispatchEnv) (p : AttributePlugin) (pi : Nat)
    (q : List Nat) (tagName : String) :
    ∀ (ds : List (String × String)) (id : String) (st : DsRunState)
      (idF : String) (stF : DsRunState) (trF : List DsEvent),
      processAttrs env p pi q tagName ds id st = Except.ok (idF, stF, trF) →
      idF = id ∨ (strLength id = 0 ∧ ∃ n, idF = dsId st.parentID n) := by
  intro ds
  induction ds with
  | nil =>
    intro id st idF stF trF h
    simp only [processAttrs, Except.ok.injEq, Prod.mk.injEq] at h
    exact Or.inl h.1.symm
  | cons a rest ih =>
    intro id st idF stF trF h
    obtain ⟨dsKey, value⟩ := a
    simp only [processAttrs] at h
    split at h
    · exact ih _ _ _ _ _ h
    · split at h
      · exact absurd h (by simp)
      · have hone : ∀ idF', idF' = missingIdAssignedId id st →
            idF' = id ∨ (strLength id = 0 ∧ ∃ n, idF' = dsId st.parentID n) := by
          intro idF' hidF'
          by_cases h0 : strLength id = 0
          · exact Or.inr ⟨h0, st.missingIDNext, by
              rw [hidF', missingIdAssignedId_of_eq _ _ h0]⟩
          · exact Or.inl (by rw [hidF', missingIdAssignedId_of_ne _ _ h0])
        split at h
        · simp only [Except.ok.injEq, Prod.mk.injEq] at h
          exact hone idF h.1.symm
        · split at h
          · exact absurd h (by simp)
          · next idF' stF' trF' heq2 =>
            simp only [Except.ok.injEq, Prod.mk.injEq] at h
            rcases ih _ _ _ _ _ heq2 with hl | ⟨h0, n, hr⟩
            · exact hone idF (by rw [← h.1, hl])
            · exfalso
              by_cases hz : strLength id = 0
              · rw [missingIdAssignedId_of_eq _ _ hz] at h0
                exact strLength_dsId _ _ h0
              · rw [missingIdAssignedId_of_ne _ _ hz] at h0
                exact hz h0

theorem processAttrs_idAssign (env : DispatchEnv) (p : AttributePlugin) (pi : Nat)
    (q : List Nat) (tagName : String) :
    ∀ (ds : List (String × String)) (id : String) (st : DsRunState)
      (idF : String) (stF : DsRunState) (trF : List DsEvent),
      processAttrs env p pi q tagName ds id st = Except.ok (idF, stF, trF) →
      strLength id = 0 → (∃ kv ∈ ds, strStartsWith kv.1 p.pfx = true) →
      ∃ n, idF = dsId st.parentID n := by
  intro ds
  induction ds with
  | nil =>
    intro id st idF stF trF h h0 hex
    simp at hex
  | cons a rest ih =>
    intro id st idF stF trF h h0 hex
    obtain ⟨dsKey, value⟩ := a
    simp only [processAttrs] at h
    split at h
    · next hskip =>
      refine ih _ _ _ _ _ h h0 ?_
      rcases hex with ⟨kv, hkv, hsw⟩
      rcases List.mem_cons.mp hkv with rfl | hkv'
      · simp only [Bool.not_eq_true'] at hskip
        rw [hsw] at hskip
        simp at hskip
      · exact ⟨kv, hkv', hsw⟩
    · have hid1 : missingIdAssignedId id st = dsId st.parentID st.missingIDNext :=
        missingIdAssignedId_of_eq _ _ h0
      split at h
      · exact absurd h (by simp)
      · split at h
        · simp only [Except.ok.injEq, Prod.mk.injEq] at h
          exact ⟨st.missingIDNext, by rw [← h.1, hid1]⟩
        · split at h
          · exact absurd h (by simp)
          · next idF' stF' trF' heq2 =>
            simp only [Except.ok.injEq, Prod.mk.injEq] at h
            rcases processAttrs_idChange env p pi q tagName rest _ _ _ _ _ heq2 with
              hl | ⟨hz, _, _⟩
            · exact ⟨st.missingIDNext, by rw [← h.1, hl, hid1]⟩
            · exfalso
              rw [hid1] at hz
              exact strLength_dsId _ _ hz

/-! ## Lemmas about the per-element flush -/

theorem cleanup_fired (m : RemovalMap) (q : List Nat) :
    (cleanupElementRemovals m q).1 = (lookupRemovals m q).getD [] := by
  unfold cleanupElementRemovals
  cases h : lookupRemovals m q <;> simp [h]

theorem cleanup_lookup_other (m : RemovalMap) (q r : List Nat) (h : r ≠ q) :
    lookupRemovals (cleanupElementRemovals m q).2 r = lookupRemovals m r := by
  unfold cleanupElementRemovals
  cases hl : lookupRemovals m q
  · rfl
  · exact lookupRemovals_erase_other m q r h

theorem flushedState_parentID (pi : Nat) (q : List Nat) (st : DsRunState) :
    (flushedState pi q st).parentID = st.parentID := by
  unfold flushedState; split <;> rfl

theorem flushedState_missingIDNext (pi : Nat) (q : List Nat) (st : DsRunState) :
    (flushedState pi q st).missingIDNext = st.missingIDNext := by
  unfold flushedState; split <;> rfl

theorem flushedState_lookup_other (pi : Nat) (q : List Nat) (st : DsRunState)
    (r : List Nat) (h : r ≠ q) :
    lookupRemovals (flushedState pi q st).removals r = lookupRemovals st.removals r := by
  unfold flushedState
  split
  · exact cleanup_lookup_other st.removals q r h
  · rfl

theorem flushedTr_assignedNats (pi : Nat) (q : List Nat) (st : DsRunState) :
    assignedNats (flushedTr pi q st) = [] := by
  unfold flushedTr; split <;> rfl

theorem flushedTr_paths (pi : Nat) (q : List Nat) (st : DsRunState) :
    ∀ ev ∈ flushedTr pi q st, eventPath ev = q := by
  unfold flushedTr; split <;> simp [eventPath]

theorem flushedTr_flush_mem (pi : Nat) (q : List Nat) (st : DsRunState)
    (pv : Nat) (s : List Nat) (f : List Nat) :
    DsEvent.flush pv s f ∈ flushedTr pi q st → pi = 0 ∧ pv = 0 := by
  unfold flushedTr
  split
  · next hpi =>
    intro hm
    simp at hm
    exact ⟨hpi, by rw [hm.1, hpi]⟩
  · intro hm; simp at hm

/-! ## Mutual lemmas about walkPass: state evolution -/

mutual
theorem walkPass_state (env : DispatchEnv) (p : AttributePlugin) (pi : Nat) :
    ∀ (el : Element) (q : List Nat) (st : DsRunState) (el' : Element)
      (stF : DsRunState) (tr : List DsEvent),
      walkPass env p pi q st el = Except.ok (el', stF, tr) →
      stF.parentID = st.parentID ∧ stripId el' = stripId el ∧
        ∃ k, assignedNats tr = List.range' st.missingIDNext k
          ∧ stF.missingIDNext = st.missingIDNext + k
  | Element.mk id tagName ds kids => by
    intro q st el' stF tr h
    simp only [walkPass] at h
    split at h
    · exact absurd h (by simp)
    · next id1 st1 tr1 heq1 =>
      split at h
      · exact absurd h (by simp)
      · next kids1 st2 tr2 heq2 =>
        simp only [Except.ok.injEq, Prod.mk.injEq] at h
        obtain ⟨hel, hst, htr⟩ := h
        have hk := walkKids_state env p pi kids q 0 st1 kids1 st2 tr2 heq2
        have hpa1 := processAttrs_parentID env p pi q tagName ds id _ _ _ _ heq1
        obtain ⟨k1, hpan, hpac⟩ :=
          processAttrs_counters env p pi q tagName ds id _ _ _ _ heq1
        refine ⟨?_, ?_, ?_⟩
        · rw [← hst, hk.1, hpa1, flushedState_parentID]
        · rw [← hel]
          show Element.mk "" tagName ds (stripIds kids1)
            = Element.mk "" tagName ds (stripIds kids)
          rw [hk.2.1]
        · obtain ⟨k2, hkn, hkc⟩ := hk.2.2
          rw [flushedState_missingIDNext] at hpan hpac
          refine ⟨k1 + k2, ?_, ?_⟩
          · rw [← htr, assignedNats_append, assignedNats_append,
              flushedTr_assignedNats, List.nil_append, hpan, hkn, hpac, rangeAppend]
          · rw [← hst, hkc, hpac]
            omega

theorem walkKids_state (env : DispatchEnv) (p : AttributePlugin) (pi : Nat) :
    ∀ (ks : List Element) (q : List Nat) (i : Nat) (st : DsRunState)
      (ks' : List Element) (stF : DsRunState) (tr : List DsEvent),
      walkKids env p pi q i st ks = Except.ok (ks', stF, tr) →
      stF.parentID = st.parentID ∧ stripIds ks' = stripIds ks ∧
        ∃ k, assignedNats tr = List.range' st.missingIDNext k
          ∧ stF.missingIDNext = st.missingIDNext + k
  | [] => by
    intro q i st ks' stF tr h
    simp only [walkKids, Except.ok.injEq, Prod.mk.injEq] at h
    obtain ⟨h1, h2, h3⟩ := h
    refine ⟨by rw [← h2], by rw [← h1], 0, by rw [← h3]; rfl, by rw [← h2]; omega⟩
  | k :: ks => by
    intro q i st ks' stF tr h
    simp only [walkKids] at h
    split at h
    · exact absurd h (by simp)
    · next k1 st1 tr1 heq1 =>
      split at h
      · exact absurd h (by simp)
      · next ks1 st2 tr2 heq2 =>
        simp only [Except.ok.injEq, Prod.mk.injEq] at h
        obtain ⟨hel, hst, htr⟩ := h
        have hw := walkPass_state env p pi k (q ++ [i]) st k1 st1 tr1 heq1
        have hks := walkKids_state env p pi ks q (i + 1) st1 ks1 st2 tr2 heq2
        refine ⟨?_, ?_, ?_⟩
        · rw [← hst, hks.1, hw.1]
        · rw [← hel]
          show stripId k1 :: stripIds ks1 = stripId k :: stripIds ks
          rw [hw.2.1, hks.2.1]
        · obtain ⟨k1n, hn1, hc1⟩ := hw.2.2
          obtain ⟨k2n, hn2, hc2⟩ := hks.2.2
          refine ⟨k1n + k2n, ?_, ?_⟩
          · rw [← htr, assignedNats_append, hn1, hn2, hc1, rangeAppend]
          · rw [← hst, hc2, hc1]
            omega
end

/-! ## Mutual lemmas about walkPass: locality -/

mutual
theorem walkPass_locality (env : DispatchEnv) (p : AttributePlugin) (pi : Nat) :
    ∀ (el : Element) (q : List Nat) (st : DsRunState) (el' : Element)
      (stF : DsRunState) (tr : List DsEvent),
      walkPass env p pi q st el = Except.ok (el', stF, tr) →
      (∀ ev ∈ tr, ∃ s ∈ elementPaths el, eventPath ev = q ++ s)
      ∧ (∀ r, (∀ s ∈ elementPaths el, r ≠ q ++ s) →
          lookupRemovals stF.removals r = lookupRemovals st.removals r)
      ∧ (∀ pv s f, DsEvent.flush pv s f ∈ tr → pi = 0 ∧ pv = 0)
  | Element.mk id tagName ds kids => by
    intro q st el' stF tr h
    simp only [walkPass] at h
    split at h
    · exact absurd h (by simp)
    · next id1 st1 tr1 heq1 =>
      split at h
      · exact absurd h (by simp)
      · next kids1 st2 tr2 heq2 =>
        simp only [Except.ok.injEq, Prod.mk.injEq] at h
        obtain ⟨hel, hst, htr⟩ := h
        have hkids := walkKids_locality env p pi kids q 0 st1 kids1 st2 tr2 heq2
        have hpaths := processAttrs_paths env p pi q tagName ds id _ _ _ _ heq1
        have hnil : ([] : List Nat) ∈ elementPaths (Element.mk id tagName ds kids) := by
          show ([] : List Nat) ∈ [] :: kidsPaths 0 kids
          exact List.mem_cons_self _ _
        have hsub : ∀ s ∈ kidsPaths 0 kids,
            s ∈ elementPaths (Element.mk id tagName ds kids) := by
          intro s hs
          show s ∈ [] :: kidsPaths 0 kids
          exact List.mem_cons_of_mem _ hs
        refine ⟨?_, ?_, ?_⟩
        · intro ev hev
          rw [← htr] at hev
          rcases List.mem_append.mp hev with hev' | hev2
          · rcases List.mem_append.mp hev' with hevf | hev1
            · exact ⟨[], hnil, by rw [flushedTr_paths pi q st ev hevf, List.append_nil]⟩
            · exact ⟨[], hnil, by rw [(hpaths ev hev1).1, List.append_nil]⟩
          · obtain ⟨s, hs, hp⟩ := hkids.1 ev hev2
            exact ⟨s, hsub s hs, hp⟩
        · intro r hr
          have hrq : r ≠ q := by
            have := hr [] hnil
            rwa [List.append_nil] at this
          rw [← hst]
          rw [hkids.2.1 r (fun s hs => hr s (hsub s hs)),
            processAttrs_removals_other env p pi q tagName ds id _ _ _ _ heq1 r hrq,
            flushedState_lookup_other pi q st r hrq]
        · intro pv s f hm
          rw [← htr] at hm
          rcases List.mem_append.mp hm with hm' | hm2
          · rcases List.mem_append.mp hm' with hmf | hm1
            · exact flushedTr_flush_mem pi q st pv s f hmf
            · have := (hpaths _ hm1).2
              simp [isFlushEvent] at this
          · exact hkids.2.2 pv s f hm2

theorem walkKids_locality (env : DispatchEnv) (p : AttributePlugin) (pi : Nat) :
    ∀ (ks : List Element) (q : List Nat) (i : Nat) (st : DsRunState)
      (ks' : List Element) (stF : DsRunState) (tr : List DsEvent),
      walkKids env p pi q i st ks = Except.ok (ks', stF, tr) →
      (∀ ev ∈ tr, ∃ s ∈ kidsPaths i ks, eventPath ev = q ++ s)
      ∧ (∀ r, (∀ s ∈ kidsPaths i ks, r ≠ q ++ s) →
          lookupRemovals stF.removals r = lookupRemovals st.removals r)
      ∧ (∀ pv s f, DsEvent.flush pv s f ∈ tr → pi = 0 ∧ pv = 0)
  | [] => by
    intro q i st ks' stF tr h
    simp only [walkKids, Except.ok.injEq, Prod.mk.injEq] at h
    obtain ⟨h1, h2, h3⟩ := h
    refine ⟨?_, ?_, ?_⟩
    · intro ev hev; rw [← h3] at hev; simp at hev
    · intro r _; rw [← h2]
    · intro pv s f hm; rw [← h3] at hm; simp at hm
  | k :: ks => by
    intro q i st ks' stF tr h
    simp only [walkKids] at h
    split at h
    · exact absurd h (by simp)
    · next k1 st1 tr1 heq1 =>
      split at h
      · exact absurd h (by simp)
      · next ks1 st2 tr2 heq2 =>
        simp only [Except.ok.injEq, Prod.mk.injEq] at h
        obtain ⟨hel, hst, htr⟩ := h
        have hw := walkPass_locality env p pi k (q ++ [i]) st k1 st1 tr1 heq1
        have hks := walkKids_locality env p pi ks q (i + 1) st1 ks1 st2 tr2 heq2
        have hmemL : ∀ s' ∈ elementPaths k, i :: s' ∈ kidsPaths i (k :: ks) := by
          intro s' hs'
          show i :: s' ∈ (elementPaths k).map (fun r => i :: r) ++ kidsPaths (i + 1) ks
          exact List.mem_append_left _ (List.mem_map.mpr ⟨s', hs', rfl⟩)
        have hmemR : ∀ s ∈ kidsPaths (i + 1) ks, s ∈ kidsPaths i (k :: ks) := by
          intro s hs
          show s ∈ (elementPaths k).map (fun r => i :: r) ++ kidsPaths (i + 1) ks
          exact List.mem_append_right _ hs
        refine ⟨?_, ?_, ?_⟩
        · intro ev hev
          rw [← htr] at hev
          rcases List.mem_append.mp hev with hev1 | hev2
          · obtain ⟨s', hs', hp⟩ := hw.1 ev hev1
            exact ⟨i :: s', hmemL s' hs', by rw [hp, appendConsPath]⟩
          · obtain ⟨s, hs, hp⟩ := hks.1 ev hev2
            exact ⟨s, hmemR s hs, hp⟩
        · intro r hr
          rw [← hst]
          rw [hks.2.1 r (fun s hs => hr s (hmemR s hs)),
            hw.2.1 r (fun s' hs' => by
              rw [appendConsPath]
              exact hr (i :: s') (hmemL s' hs'))]
        · intro pv s f hm
          rw [← htr] at hm
          rcases List.mem_append.mp hm with hm1 | hm2
          · exact hw.2.2 pv s f hm1
          · exact hks.2.2 pv s f hm2
end

theorem flushedTr_zero (q : List Nat) (st : DsRunState) :
    flushedTr 0 q st
      = [DsEvent.flush 0 q ((lookupRemovals st.removals q).getD [])] := by
  unfold flushedTr
  rw [if_pos rfl, cleanup_fired]

theorem append_cons_ne_self (q : List Nat) (j : Nat) (s : List Nat) :
    q ++ j :: s ≠ q := by
  intro h
  have := congrArg List.length h
  simp at this

theorem eventIsProcAt_false_of_ne (r : List Nat) (ev : DsEvent)
    (h : eventPath ev ≠ r) : eventIsProcAt r ev = false := by
  simp [eventIsProcAt, h]

theorem eventIsFlushAt_flush_self (r : List Nat) (pv : Nat) (f : List Nat) :
    eventIsFlushAt r (DsEvent.flush pv r f) = true := by
  simp [eventIsFlushAt, isFlushEvent, eventPath]

/-! ## Mutual lemmas about walkPass on the first plugin pass -/

mutual
theorem walkPass_flushes (env : DispatchEnv) (p : AttributePlugin) :
    ∀ (el : Element) (q : List Nat) (st : DsRunState) (el' : Element)
      (stF : DsRunState) (tr : List DsEvent),
      walkPass env p 0 q st el = Except.ok (el', stF, tr) →
      (∀ s ∈ elementPaths el,
        DsEvent.flush 0 (q ++ s) ((lookupRemovals st.removals (q ++ s)).getD []) ∈ tr)
      ∧ (∀ r, noAttrBeforeFlush r tr)
  | Element.mk id tagName ds kids => by
    intro q st el' stF tr h
    simp only [walkPass] at h
    split at h
    · exact absurd h (by simp)
    · next id1 st1 tr1 heq1 =>
      split at h
      · exact absurd h (by simp)
      · next kids1 st2 tr2 heq2 =>
        simp only [Except.ok.injEq, Prod.mk.injEq] at h
        obtain ⟨hel, hst, htr⟩ := h
        have hkids := walkKids_flushes env p kids q 0 st1 kids1 st2 tr2 heq2
        have hpaths := processAttrs_paths env p 0 q tagName ds id _ _ _ _ heq1
        have hst1 : ∀ r, r ≠ q →
            lookupRemovals st1.removals r = lookupRemovals st.removals r := by
          intro r hr
          rw [processAttrs_removals_other env p 0 q tagName ds id _ _ _ _ heq1 r hr,
            flushedState_lookup_other 0 q st r hr]
        refine ⟨?_, ?_⟩
        · intro s hs
          rw [← htr]
          rcases List.mem_cons.mp hs with rfl | hs'
          · rw [List.append_nil]
            refine List.mem_append.mpr (Or.inl (List.mem_append.mpr (Or.inl ?_)))
            rw [flushedTr_zero]
            exact List.mem_singleton.mpr rfl
          · obtain ⟨j, s', rfl, _⟩ := kidsPaths_shape kids 0 s hs'
            have hne : q ++ j :: s' ≠ q := append_cons_ne_self q j s'
            have := hkids.1 (j :: s') hs'
            rw [hst1 (q ++ j :: s') hne] at this
            exact List.mem_append.mpr (Or.inr this)
        · intro r
          rw [← htr, flushedTr_zero, List.append_assoc, List.singleton_append]
          by_cases hrq : r = q
          · subst hrq
            show noAttrBeforeFlush r (DsEvent.flush 0 r _ :: _)
            simp only [noAttrBeforeFlush]
            rw [if_pos (eventIsFlushAt_flush_self r 0 _)]
            trivial
          · have hqr : ¬ q = r := fun hh => hrq hh.symm
            show noAttrBeforeFlush r (DsEvent.flush 0 q _ :: (tr1 ++ tr2))
            simp only [noAttrBeforeFlush]
            rw [if_neg (by simp [eventIsFlushAt, isFlushEvent, eventPath, hqr])]
            refine ⟨by simp [eventIsProcAt, isFlushEvent], ?_⟩
            refine nabf_of_all_notProc r tr1 tr2 ?_ (hkids.2 r)
            intro ev hev
            exact eventIsProcAt_false_of_ne r ev (by rw [(hpaths ev hev).1]; exact hqr)

theorem walkKids_flushes (env : DispatchEnv) (p : AttributePlugin) :
    ∀ (ks : List Element) (q : List Nat) (i : Nat) (st : DsRunState)
      (ks' : List Element) (stF : DsRunState) (tr : List DsEvent),
      walkKids env p 0 q i st ks = Except.ok (ks', stF, tr) →
      (∀ s ∈ kidsPaths i ks,
        DsEvent.flush 0 (q ++ s) ((lookupRemovals st.removals (q ++ s)).getD []) ∈ tr)
      ∧ (∀ r, noAttrBeforeFlush r tr)
  | [] => by
    intro q i st ks' stF tr h
    simp only [walkKids, Except.ok.injEq, Prod.mk.injEq] at h
    obtain ⟨h1, h2, h3⟩ := h
    refine ⟨?_, ?_⟩
    · intro s hs; simp [kidsPaths] at hs
    · intro r; rw [← h3]; exact nabf_nil r
  | k :: ks => by
    intro q i st ks' stF tr h
    simp only [walkKids] at h
    split at h
    · exact absurd h (by simp)
    · next k1 st1 tr1 heq1 =>
      split at h
      · exact absurd h (by simp)
      · next ks1 st2 tr2 heq2 =>
        simp only [Except.ok.injEq, Prod.mk.injEq] at h
        obtain ⟨hel, hst, htr⟩ := h
        have hw := walkPass_flushes env p k (q ++ [i]) st k1 st1 tr1 heq1
        have hks := walkKids_flushes env p ks q (i + 1) st1 ks1 st2 tr2 heq2
        have hwl := walkPass_locality env p 0 k (q ++ [i]) st k1 st1 tr1 heq1
        have hpreserve : ∀ s ∈ kidsPaths (i + 1) ks,
            lookupRemovals st1.removals (q ++ s) = lookupRemovals st.removals (q ++ s) := by
          intro s hs
          obtain ⟨j, s', rfl, hj⟩ := kidsPaths_shape ks (i + 1) s hs
          refine hwl.2.1 (q ++ j :: s') ?_
          intro s'' _
          rw [appendConsPath]
          exact pathNeOfIndexNe q j i s' s'' (by omega)
        refine ⟨?_, ?_⟩
        · intro s hs
          rw [← htr]
          rcases List.mem_append.mp (by
              simpa only [kidsPaths] using hs :
              s ∈ (elementPaths k).map (fun r => i :: r) ++ kidsPaths (i + 1) ks) with
            hsl | hsr
          · obtain ⟨s', hs', rfl⟩ := List.mem_map.mp hsl
            have := hw.1 s' hs'
            rw [appendConsPath] at this
            exact List.mem_append.mpr (Or.inl this)
          · have := hks.1 s hsr
            rw [hpreserve s hsr] at this
            exact List.mem_append.mpr (Or.inr this)
        · intro r
          rw [← htr]
          by_cases hc : ∃ s' ∈ elementPaths k, r = (q ++ [i]) ++ s'
          · obtain ⟨s', hs', rfl⟩ := hc
            refine nabf_of_flush_mem _ tr1 tr2 (hw.2 _) ?_
            exact ⟨_, hw.1 s' hs', eventIsFlushAt_flush_self _ 0 _⟩
          · refine nabf_of_all_notProc r tr1 tr2 ?_ (hks.2 r)
            intro ev hev
            obtain ⟨s', hs', hp⟩ := hwl.1 ev hev
            refine eventIsProcAt_false_of_ne r ev ?_
            rw [hp]
            intro hcontra
            exact hc ⟨s', hs', hcontra.symm⟩
end

theorem idAt_nil (id tagName : String) (ds : List (String × String))
    (kids : List Element) : idAt (Element.mk id tagName ds kids) [] = some id := rfl

theorem idAt_cons (id tagName : String) (ds : List (String × String))
    (kids : List Element) (i : Nat) (s : List Nat) :
    idAt (Element.mk id tagName ds kids) (i :: s) = idAtL kids i s := rfl

theorem elementAt_cons (id tagName : String) (ds : List (String × String))
    (kids : List Element) (i : Nat) (s : List Nat) :
    elementAt (Element.mk id tagName ds kids) (i :: s) = elAtL kids i s := rfl

theorem idAtL_cons_zero (k : Element) (ks : List Element) (s : List Nat) :
    idAtL (k :: ks) 0 s = idAt k s := rfl

theorem idAtL_cons_succ (k : Element) (ks : List Element) (j : Nat) (s : List Nat) :
    idAtL (k :: ks) (j + 1) s = idAtL ks j s := rfl

theorem elAtL_cons_zero (k : Element) (ks : List Element) (s : List Nat) :
    elAtL (k :: ks) 0 s = elementAt k s := rfl

theorem elAtL_cons_succ (k : Element) (ks : List Element) (j : Nat) (s : List Nat) :
    elAtL (k :: ks) (j + 1) s = elAtL ks j s := rfl

/-! ## Mutual lemmas about walkPass: id assignment -/

mutual
theorem walkPass_ids (env : DispatchEnv) (p : AttributePlugin) (pi : Nat) :
    ∀ (el : Element) (q : List Nat) (st : DsRunState) (el' : Element)
      (stF : DsRunState) (tr : List DsEvent),
      walkPass env p pi q st el = Except.ok (el', stF, tr) →
      (∀ r, idAt el' r = idAt el r
        ∨ (idAt el r = some "" ∧ ∃ n, idAt el' r = some (dsId st.parentID n)))
      ∧ (∀ r el0, elementAt el r = some el0 → strLength el0.id = 0 →
          (∃ kv ∈ el0.dataset, strStartsWith kv.1 p.pfx = true) →
          ∃ n, idAt el' r = some (dsId st.parentID n))
  | Element.mk id tagName ds kids => by
    intro q st el' stF tr h
    simp only [walkPass] at h
    split at h
    · exact absurd h (by simp)
    · next id1 st1 tr1 heq1 =>
      split at h
      · exact absurd h (by simp)
      · next kids1 st2 tr2 heq2 =>
        simp only [Except.ok.injEq, Prod.mk.injEq] at h
        obtain ⟨hel, hst, htr⟩ := h
        have hkids := walkKids_ids env p pi kids q 0 st1 kids1 st2 tr2 heq2
        have hpid1 : st1.parentID = st.parentID := by
          rw [processAttrs_parentID env p pi q tagName ds id _ _ _ _ heq1,
            flushedState_parentID]
        refine ⟨?_, ?_⟩
        · intro r
          cases r with
          | nil =>
            rw [← hel, idAt_nil, idAt_nil]
            rcases processAttrs_idChange env p pi q tagName ds id _ _ _ _ heq1 with
              hc | ⟨h0, n, hc⟩
            · exact Or.inl (by rw [hc])
            · refine Or.inr ⟨by rw [(strLength_eq_zero_iff id).mp h0], n, ?_⟩
              rw [hc, flushedState_parentID]
          | cons i s =>
            rw [← hel, idAt_cons, idAt_cons]
            rcases hkids.1 i s with hc | ⟨h0, n, hc⟩
            · exact Or.inl hc
            · exact Or.inr ⟨h0, n, by rw [hc, hpid1]⟩
        · intro r el0 helr h0 hex
          cases r with
          | nil =>
            simp only [elementAt] at helr
            have hel0 : el0 = Element.mk id tagName ds kids := by
              injection helr with hh; exact hh.symm
            subst hel0
            simp only [Element.id] at h0
            simp only [Element.dataset] at hex
            obtain ⟨n, hn⟩ :=
              processAttrs_idAssign env p pi q tagName ds id _ _ _ _ heq1 h0 hex
            rw [flushedState_parentID] at hn
            exact ⟨n, by rw [← hel, idAt_nil, hn]⟩
          | cons i s =>
            rw [elementAt_cons] at helr
            obtain ⟨n, hn⟩ := hkids.2 i s el0 helr h0 hex
            rw [hpid1] at hn
            exact ⟨n, by rw [← hel, idAt_cons]; exact hn⟩

theorem walkKids_ids (env : DispatchEnv) (p : AttributePlugin) (pi : Nat) :
    ∀ (ks : List Element) (q : List Nat) (i : Nat) (st : DsRunState)
      (ks' : List Element) (stF : DsRunState) (tr : List DsEvent),
      walkKids env p pi q i st ks = Except.ok (ks', stF, tr) →
      (∀ j s, idAtL ks' j s = idAtL ks j s
        ∨ (idAtL ks j s = some "" ∧ ∃ n, idAtL ks' j s = some (dsId st.parentID n)))
      ∧ (∀ j s el0, elAtL ks j s = some el0 → strLength el0.id = 0 →
          (∃ kv ∈ el0.dataset, strStartsWith kv.1 p.pfx = true) →
          ∃ n, idAtL ks' j s = some (dsId st.parentID n))
  | [] => by
    intro q i st ks' stF tr h
    simp only [walkKids, Except.ok.injEq, Prod.mk.injEq] at h
    obtain ⟨h1, h2, h3⟩ := h
    refine ⟨?_, ?_⟩
    · intro j s; rw [← h1]; exact Or.inl rfl
    · intro j s el0 helr
      simp [elAtL] at helr
  | k :: ks => by
    intro q i st ks' stF tr h
    simp only [walkKids] at h
    split at h
    · exact absurd h (by simp)
    · next k1 st1 tr1 heq1 =>
      split at h
      · exact absurd h (by simp)
      · next ks1 st2 tr2 heq2 =>
        simp only [Except.ok.injEq, Prod.mk.injEq] at h
        obtain ⟨hel, hst, htr⟩ := h
        have hw := walkPass_ids env p pi k (q ++ [i]) st k1 st1 tr1 heq1
        have hks := walkKids_ids env p pi ks q (i + 1) st1 ks1 st2 tr2 heq2
        have hpid1 : st1.parentID = st.parentID :=
          (walkPass_state env p pi k (q ++ [i]) st k1 st1 tr1 heq1).1
        refine ⟨?_, ?_⟩
        · intro j s
          cases j with
          | zero =>
            rw [← hel, idAtL_cons_zero, idAtL_cons_zero]
            exact hw.1 s
          | succ j' =>
            rw [← hel, idAtL_cons_succ, idAtL_cons_succ]
            rcases hks.1 j' s with hc | ⟨h0, n, hc⟩
            · exact Or.inl hc
            · exact Or.inr ⟨h0, n, by rw [hc, hpid1]⟩
        · intro j s el0 helr h0 hex
          cases j with
          | zero =>
            rw [elAtL_cons_zero] at helr
            obtain ⟨n, hn⟩ := hw.2 s el0 helr h0 hex
            exact ⟨n, by rw [← hel, idAtL_cons_zero]; exact hn⟩
          | succ j' =>
            rw [elAtL_cons_succ] at helr
            obtain ⟨n, hn⟩ := hks.2 j' s el0 helr h0 hex
            rw [hpid1] at hn
            exact ⟨n, by rw [← hel, idAtL_cons_succ]; exact hn⟩
end

theorem nabf_of_noProc (r : List Nat) (l : List DsEvent)
    (h : ∀ ev ∈ l, eventIsProcAt r ev = false) : noAttrBeforeFlush r l := by
  have := nabf_of_all_notProc r l [] h (nabf_nil r)
  rwa [List.append_nil] at this

theorem idAt_of_elementAt (t : Element) (r : List Nat) (el0 : Element)
    (h : elementAt t r = some el0) : idAt t r = some el0.id := by
  simp [idAt, h]

theorem elementPaths_congr (t1 t2 : Element) (h : stripId t1 = stripId t2) :
    elementPaths t1 = elementPaths t2 := by
  rw [← elementPaths_stripId t1, h, elementPaths_stripId t2]

theorem elementAt_congr (t1 t2 : Element) (r : List Nat) (el0 : Element)
    (h : stripId t1 = stripId t2) (h2 : elementAt t2 r = some el0) :
    ∃ el0', elementAt t1 r = some el0' ∧ stripId el0' = stripId el0 := by
  have hmap := elementAt_stripId_congr r t1 t2 h
  rw [h2] at hmap
  cases h1 : elementAt t1 r with
  | none => rw [h1] at hmap; simp at hmap
  | some el0' =>
    rw [h1] at hmap
    simp only [Option.map_some'] at hmap
    injection hmap with hmap
    exact ⟨el0', rfl, hmap⟩

/-! ## Lemmas about goPasses -/

theorem goPasses_state (env : DispatchEnv) :
    ∀ (ps : List AttributePlugin) (pi : Nat) (t : Element) (st : DsRunState)
      (t' : Element) (st' : DsRunState) (tr : List DsEvent),
      goPasses env ps pi t st = Except.ok (t', st', tr) →
      st'.parentID = st.parentID ∧ stripId t' = stripId t ∧
        ∃ k, assignedNats tr = List.range' st.missingIDNext k
          ∧ st'.missingIDNext = st.missingIDNext + k := by
  intro ps
  induction ps with
  | nil =>
    intro pi t st t' st' tr h
    simp only [goPasses, Except.ok.injEq, Prod.mk.injEq] at h
    obtain ⟨h1, h2, h3⟩ := h
    exact ⟨by rw [← h2], by rw [← h1], 0, by rw [← h3]; rfl, by rw [← h2]; omega⟩
  | cons p rest ih =>
    intro pi t st t' st' tr h
    simp only [goPasses] at h
    split at h
    · exact absurd h (by simp)
    · next t1 st1 tr1 heq1 =>
      split at h
      · exact absurd h (by simp)
      · next t2 st2 tr2 heq2 =>
        simp only [Except.ok.injEq, Prod.mk.injEq] at h
        obtain ⟨hel, hst, htr⟩ := h
        have hw := walkPass_state env p pi t [] st t1 st1 tr1 heq1
        have hg := ih (pi + 1) t1 st1 t2 st2 tr2 heq2
        refine ⟨by rw [← hst, hg.1, hw.1], by rw [← hel, hg.2.1, hw.2.1], ?_⟩
        obtain ⟨k1, hn1, hc1⟩ := hw.2.2
        obtain ⟨k2, hn2, hc2⟩ := hg.2.2
        refine ⟨k1 + k2, ?_, ?_⟩
        · rw [← htr, assignedNats_append, hn1, hn2, hc1, rangeAppend]
        · rw [← hst, hc2, hc1]; omega

theorem goPasses_eventPaths (env : DispatchEnv) :
    ∀ (ps : List AttributePlugin) (pi : Nat) (t : Element) (st : DsRunState)
      (t' : Element) (st' : DsRunState) (tr : List DsEvent),
      goPasses env ps pi t st = Except.ok (t', st', tr) →
      ∀ ev ∈ tr, eventPath ev ∈ elementPaths t := by
  intro ps
  induction ps with
  | nil =>
    intro pi t st t' st' tr h
    simp only [goPasses, Except.ok.injEq, Prod.mk.injEq] at h
    intro ev hev
    rw [← h.2.2] at hev
    simp at hev
  | cons p rest ih =>
    intro pi t st t' st' tr h
    simp only [goPasses] at h
    split at h
    · exact absurd h (by simp)
    · next t1 st1 tr1 heq1 =>
      split at h
      · exact absurd h (by simp)
      · next t2 st2 tr2 heq2 =>
        simp only [Except.ok.injEq, Prod.mk.injEq] at h
        intro ev hev
        rw [← h.2.2] at hev
        rcases List.mem_append.mp hev with hev1 | hev2
        · obtain ⟨s, hs, hp⟩ :=
            (walkPass_locality env p pi t [] st t1 st1 tr1 heq1).1 ev hev1
          rw [List.nil_append] at hp
          rw [hp]
          exact hs
        · have hpres : elementPaths t1 = elementPaths t :=
            elementPaths_congr t1 t
              (walkPass_state env p pi t [] st t1 st1 tr1 heq1).2.1
          have := ih (pi + 1) t1 st1 t2 st2 tr2 heq2 ev hev2
          rwa [hpres] at this

theorem goPasses_flush_mem (env : DispatchEnv) :
    ∀ (ps : List AttributePlugin) (pi : Nat) (t : Element) (st : DsRunState)
      (t' : Element) (st' : DsRunState) (tr : List DsEvent),
      goPasses env ps pi t st = Except.ok (t', st', tr) →
      ∀ pv s f, DsEvent.flush pv s f ∈ tr → pi = 0 ∧ pv = 0 := by
  intro ps
  induction ps with
  | nil =>
    intro pi t st t' st' tr h pv s f hm
    simp only [goPasses, Except.ok.injEq, Prod.mk.injEq] at h
    rw [← h.2.2] at hm
    simp at hm
  | cons p rest ih =>
    intro pi t st t' st' tr h pv s f hm
    simp only [goPasses] at h
    split at h
    · exact absurd h (by simp)
    · next t1 st1 tr1 heq1 =>
      split at h
      · exact absurd h (by simp)
      · next t2 st2 tr2 heq2 =>
        simp only [Except.ok.injEq, Prod.mk.injEq] at h
        rw [← h.2.2] at hm
        rcases List.mem_append.mp hm with hm1 | hm2
        · exact (walkPass_locality env p pi t [] st t1 st1 tr1 heq1).2.2 pv s f hm1
        · have := ih (pi + 1) t1 st1 t2 st2 tr2 heq2 pv s f hm2
          omega

theorem goPasses_id_keep (env : DispatchEnv) :
    ∀ (ps : List AttributePlugin) (pi : Nat) (t : Element) (st : DsRunState)
      (t' : Element) (st' : DsRunState) (tr : List DsEvent),
      goPasses env ps pi t st = Except.ok (t', st', tr) →
      ∀ r s0, idAt t r = some s0 → ¬ strLength s0 = 0 → idAt t' r = some s0 := by
  intro ps
  induction ps with
  | nil =>
    intro pi t st t' st' tr h r s0 hid _
    simp only [goPasses, Except.ok.injEq, Prod.mk.injEq] at h
    rw [← h.1]
    exact hid
  | cons p rest ih =>
    intro pi t st t' st' tr h r s0 hid hne
    simp only [goPasses] at h
    split at h
    · exact absurd h (by simp)
    · next t1 st1 tr1 heq1 =>
      split at h
      · exact absurd h (by simp)
      · next t2 st2 tr2 heq2 =>
        simp only [Except.ok.injEq, Prod.mk.injEq] at h
        rw [← h.1]
        refine ih (pi + 1) t1 st1 t2 st2 tr2 heq2 r s0 ?_ hne
        rcases (walkPass_ids env p pi t [] st t1 st1 tr1 heq1).1 r with hc | ⟨h0, n, _⟩
        · rw [hc]; exact hid
        · rw [hid] at h0
          injection h0 with h0
          rw [h0] at hne
          exact absurd rfl hne

theorem goPasses_assign (env : DispatchEnv) :
    ∀ (ps : List AttributePlugin) (pi : Nat) (t : Element) (st : DsRunState)
      (t' : Element) (st' : DsRunState) (tr : List DsEvent),
      goPasses env ps pi t st = Except.ok (t', st', tr) →
      ∀ r el0 p, elementAt t r = some el0 → strLength el0.id = 0 → p ∈ ps →
        (∃ kv ∈ el0.dataset, strStartsWith kv.1 p.pfx = true) →
        ∃ n, idAt t' r = some (dsId st.parentID n) := by
  intro ps
  induction ps with
  | nil =>
    intro pi t st t' st' tr h r el0 p _ _ hp
    simp at hp
  | cons p1 rest ih =>
    intro pi t st t' st' tr h r el0 p helr h0 hp hex
    simp only [goPasses] at h
    split at h
    · exact absurd h (by simp)
    · next t1 st1 tr1 heq1 =>
      split at h
      · exact absurd h (by simp)
      · next t2 st2 tr2 heq2 =>
        simp only [Except.ok.injEq, Prod.mk.injEq] at h
        have hw := walkPass_ids env p1 pi t [] st t1 st1 tr1 heq1
        have hws := walkPass_state env p1 pi t [] st t1 st1 tr1 heq1
        rcases List.mem_cons.mp hp with rfl | hp'
        · obtain ⟨n, hn⟩ := hw.2 r el0 helr h0 hex
          refine ⟨n, ?_⟩
          rw [← h.1]
          exact goPasses_id_keep env rest (pi + 1) t1 st1 t2 st2 tr2 heq2 r
            (dsId st.parentID n) hn (strLength_dsId st.parentID n)
        · obtain ⟨el0', helr1, hstrip⟩ := elementAt_congr t1 t r el0 hws.2.1 helr
          have hds : el0'.dataset = el0.dataset := by
            rw [← stripId_dataset el0', hstrip, stripId_dataset el0]
          rcases hw.1 r with hc | ⟨_, n, hn⟩
          · have hid' : el0'.id = el0.id := by
              have h1 := idAt_of_elementAt t1 r el0' helr1
              have h2 := idAt_of_elementAt t r el0 helr
              rw [hc, h2] at h1
              injection h1 with h1
              exact h1.symm
            obtain ⟨n, hn⟩ := ih (pi + 1) t1 st1 t2 st2 tr2 heq2 r el0' p helr1
              (by rw [hid']; exact h0) hp' (by rw [hds]; exact hex)
            rw [hws.1] at hn
            exact ⟨n, by rw [← h.1]; exact hn⟩
          · refine ⟨n, ?_⟩
            rw [← h.1]
            exact goPasses_id_keep env rest (pi + 1) t1 st1 t2 st2 tr2 heq2 r
              (dsId st.parentID n) hn (strLength_dsId st.parentID n)

/-! ## Composition and totality of the attribute loop -/

theorem processAttrs_append (env : DispatchEnv) (p : AttributePlugin) (pi : Nat)
    (q : List Nat) (tagName : String) :
    ∀ (pre rest : List (String × String)) (id : String) (st : DsRunState)
      (id1 : String) (st1 : DsRunState) (tr1 : List DsEvent),
      processAttrs env p pi q tagName pre id st = Except.ok (id1, st1, tr1) →
      (∀ ev ∈ tr1, isLogErr ev = false) →
      processAttrs env p pi q tagName (pre ++ rest) id st
        = match processAttrs env p pi q tagName rest id1 st1 with
          | Except.error e => Except.error e
          | Except.ok (idF, stF, trF) => Except.ok (idF, stF, tr1 ++ trF) := by
  intro pre
  induction pre with
  | nil =>
    intro rest id st id1 st1 tr1 h _
    simp only [processAttrs, Except.ok.injEq, Prod.mk.injEq] at h
    obtain ⟨h1, h2, h3⟩ := h
    subst h1
    subst h2
    subst h3
    rw [List.nil_append]
    cases hres : processAttrs env p pi q tagName rest id st with
    | error e => rfl
    | ok trip =>
      obtain ⟨idF, stF, trF⟩ := trip
      simp
  | cons a pre' ih =>
    intro rest id st id1 st1 tr1 h hlog
    obtain ⟨dsKey, value⟩ := a
    rw [List.cons_append]
    simp only [processAttrs] at h ⊢
    by_cases hsw : (!(strStartsWith dsKey p.pfx)) = true
    · rw [if_pos hsw] at h ⊢
      exact ih rest id st id1 st1 tr1 h hlog
    · rw [if_neg hsw] at h ⊢
      cases hv : validateAndParse p tagName dsKey value with
      | error e =>
        rw [hv] at h
        exact absurd h (by simp)
      | ok km =>
        obtain ⟨key, modifiers⟩ := km
        rw [hv] at h
        dsimp only at h ⊢
        by_cases hcf : compileFails env p
            (mkCtx q (missingIdAssignedId id st) tagName key
              ((runPreprocessors (env.coreProcs ++ p.preprocessors) [] value).1)
              modifiers) = true
        · rw [if_pos hcf] at h
          simp only [Except.ok.injEq, Prod.mk.injEq] at h
          exfalso
          have hm : DsEvent.logErr pi q
              (if strLength (missingIdAssignedId id st) == 0 then tagName
                else "#" ++ missingIdAssignedId id st)
              (fnContent ((runPreprocessors (env.coreProcs ++ p.preprocessors)
                [] value).1)) ∈ tr1 := by
            rw [← h.2.2]
            exact List.mem_append.mpr (Or.inr (by simp))
          have := hlog _ hm
          simp [isLogErr] at this
        · rw [if_neg hcf] at h ⊢
          cases hrec : processAttrs env p pi q tagName pre' (missingIdAssignedId id st)
              (registerOnLoad p q
                (mkCtx q (missingIdAssignedId id st) tagName key
                  ((runPreprocessors (env.coreProcs ++ p.preprocessors) [] value).1)
                  modifiers)
                (missingIdAssignedState id st)) with
          | error e =>
            rw [hrec] at h
            dsimp only at h
            exact absurd h (by simp)
          | ok trip =>
            obtain ⟨idA, stA, trA⟩ := trip
            rw [hrec] at h
            dsimp only at h
            simp only [Except.ok.injEq, Prod.mk.injEq] at h
            obtain ⟨hid, hstt, htr⟩ := h
            have hlogA : ∀ ev ∈ trA, isLogErr ev = false := by
              intro ev hev
              refine hlog ev ?_
              rw [← htr]
              exact List.mem_append.mpr (Or.inr hev)
            rw [ih rest _ _ idA stA trA hrec hlogA]
            subst hid
            subst hstt
            cases hfin : processAttrs env p pi q tagName rest idA stA with
            | error e => rfl
            | ok trip2 =>
              obtain ⟨idF, stF, trF⟩ := trip2
              dsimp only
              rw [← htr]
              simp [List.append_assoc]

theorem processAttrs_failHead (env : DispatchEnv) (p : AttributePlugin) (pi : Nat)
    (q : List Nat) (tagName dsKey value : String) (post : List (String × String))
    (id1 : String) (st1 : DsRunState) (key : String)
    (modifiers : List (String × List String))
    (hmatch : strStartsWith dsKey p.pfx = true)
    (hval : validateAndParse p tagName dsKey value = Except.ok (key, modifiers))
    (hfail : compileFails env p
        (mkCtx q (missingIdAssignedId id1 st1) tagName key
          ((runPreprocessors (env.coreProcs ++ p.preprocessors) [] value).1)
          modifiers) = true) :
    processAttrs env p pi q tagName ((dsKey, value) :: post) id1 st1
      = Except.ok (missingIdAssignedId id1 st1, missingIdAssignedState id1 st1,
          missingIdAssignedTr q id1 st1 ++
            [DsEvent.logErr pi q
              (if strLength (missingIdAssignedId id1 st1) == 0 then tagName
                else "#" ++ missingIdAssignedId id1 st1)
              (fnContent ((runPreprocessors (env.coreProcs ++ p.preprocessors)
                [] value).1))]) := by
  simp only [processAttrs]
  rw [if_neg (by simp [hmatch]), hval]
  simp only [hfail, if_true]

theorem processAttrs_total (env : DispatchEnv) (p : AttributePlugin) (pi : Nat)
    (q : List Nat) (tagName : String) :
    ∀ (ds : List (String × String)) (id : String) (st : DsRunState),
      attrsValidate p tagName ds = true →
      exceptIsOk (processAttrs env p pi q tagName ds id st) = true := by
  intro ds
  induction ds with
  | nil => intro id st _; rfl
  | cons a rest ih =>
    intro id st hv
    obtain ⟨dsKey, value⟩ := a
    simp only [attrsValidate, List.all_cons, Bool.and_eq_true] at hv
    have hv' : attrsValidate p tagName rest = true := hv.2
    simp only [processAttrs]
    by_cases hsw : (!(strStartsWith dsKey p.pfx)) = true
    · rw [if_pos hsw]
      exact ih id st hv'
    · rw [if_neg hsw]
      have hswt : strStartsWith dsKey p.pfx = true := by
        cases hb : strStartsWith dsKey p.pfx
        · exact absurd (by simp [hb]) hsw
        · rfl
      have hok : exceptIsOk (validateAndParse p tagName dsKey value) = true := by
        rcases Bool.or_eq_true_iff.mp hv.1 with hh | hh
        · rw [hswt] at hh; simp at hh
        · exact hh
      cases hvp : validateAndParse p tagName dsKey value with
      | error e =>
        rw [hvp] at hok
        simp [exceptIsOk] at hok
      | ok km =>
        obtain ⟨key, modifiers⟩ := km
        dsimp only
        by_cases hcf : compileFails env p
            (mkCtx q (missingIdAssignedId id st) tagName key
              ((runPreprocessors (env.coreProcs ++ p.preprocessors) [] value).1)
              modifiers) = true
        · rw [if_pos hcf]
          rfl
        · rw [if_neg hcf]
          have hrest := ih (missingIdAssignedId id st)
            (registerOnLoad p q
              (mkCtx q (missingIdAssignedId id st) tagName key
                ((runPreprocessors (env.coreProcs ++ p.preprocessors) [] value).1)
                modifiers)
              (missingIdAssignedState id st)) hv'
          cases hrec : processAttrs env p pi q tagName rest (missingIdAssignedId id st)
              (registerOnLoad p q
                (mkCtx q (missingIdAssignedId id st) tagName key
                  ((runPreprocessors (env.coreProcs ++ p.preprocessors) [] value).1)
                  modifiers)
                (missingIdAssignedState id st)) with
          | error e =>
            rw [hrec] at hrest
            simp [exceptIsOk] at hrest
          | ok trip =>
            obtain ⟨idF, stF, trF⟩ := trip
            rfl

mutual
theorem walkPass_total (env : DispatchEnv) (p : AttributePlugin) (pi : Nat) :
    ∀ (el : Element) (q : List Nat) (st : DsRunState),
      treeValidates p el = true →
      exceptIsOk (walkPass env p pi q st el) = true
  | Element.mk id tagName ds kids => by
    intro q st hv
    simp only [treeValidates, Bool.and_eq_true] at hv
    simp only [walkPass]
    cases hres : processAttrs env p pi q tagName ds id (flushedState pi q st) with
    | error e =>
      exfalso
      have := processAttrs_total env p pi q tagName ds id (flushedState pi q st) hv.1
      rw [hres] at this
      simp [exceptIsOk] at this
    | ok trip =>
      obtain ⟨id1, st1, tr1⟩ := trip
      dsimp only
      cases hk : walkKids env p pi q 0 st1 kids with
      | error e =>
        exfalso
        have := walkKids_total env p pi kids q 0 st1 hv.2
        rw [hk] at this
        simp [exceptIsOk] at this
      | ok res =>
        obtain ⟨ks1, st2, tr2⟩ := res
        rfl

theorem walkKids_total (env : DispatchEnv) (p : AttributePlugin) (pi : Nat) :
    ∀ (ks : List Element) (q : List Nat) (i : Nat) (st : DsRunState),
      kidsValidate p ks = true →
      exceptIsOk (walkKids env p pi q i st ks) = true
  | [] => by
    intro q i st _
    rfl
  | k :: ks => by
    intro q i st hv
    simp only [kidsValidate, Bool.and_eq_true] at hv
    simp only [walkKids]
    cases hres : walkPass env p pi (q ++ [i]) st k with
    | error e =>
      exfalso
      have := walkPass_total env p pi k (q ++ [i]) st hv.1
      rw [hres] at this
      simp [exceptIsOk] at this
    | ok trip =>
      obtain ⟨k1, st1, tr1⟩ := trip
      dsimp only
      cases hk : walkKids env p pi q (i + 1) st1 ks with
      | error e =>
        exfalso
        have := walkKids_total env p pi ks q (i + 1) st1 hv.2
        rw [hk] at this
        simp [exceptIsOk] at this
      | ok res =>
        obtain ⟨ks1, st2, tr2⟩ := res
        rfl
end

/-! Validation never inspects ids, so it factors through `stripId`. -/

mutual
theorem treeValidates_stripId (p : AttributePlugin) :
    ∀ (el : Element), treeValidates p (stripId el) = treeValidates p el
  | Element.mk id tagName ds kids => by
    show treeValidates p (Element.mk "" tagName ds (stripIds kids))
      = treeValidates p (Element.mk id tagName ds kids)
    simp only [treeValidates]
    rw [kidsValidate_stripIds p kids]

theorem kidsValidate_stripIds (p : AttributePlugin) :
    ∀ (ks : List Element), kidsValidate p (stripIds ks) = kidsValidate p ks
  | [] => rfl
  | k :: ks => by
    show kidsValidate p (stripId k :: stripIds ks) = kidsValidate p (k :: ks)
    simp only [kidsValidate]
    rw [treeValidates_stripId p k, kidsValidate_stripIds p ks]
end

theorem goPasses_total (env : DispatchEnv) :
    ∀ (ps : List AttributePlugin) (pi : Nat) (t : Element) (st : DsRunState),
      (∀ p ∈ ps, treeValidates p t = true) →
      exceptIsOk (goPasses env ps pi t st) = true
  | [], _, t, st => fun _ => rfl
  | p :: rest, pi, t, st => by
    intro hall
    simp only [goPasses]
    cases hres : walkPass env p pi [] st t with
    | error e =>
      exfalso
      have := walkPass_total env p pi t [] st (hall p (by simp))
      rw [hres] at this
      simp [exceptIsOk] at this
    | ok trip =>
      obtain ⟨t1, st1, tr1⟩ := trip
      dsimp only
      have hrest : ∀ p' ∈ rest, treeValidates p' t1 = true := by
        intro p' hp'
        have hs := (walkPass_state env p pi t [] st t1 st1 tr1 hres).2.1
        have hv := hall p' (by simp [hp'])
        rw [← treeValidates_stripId p' t1, hs, treeValidates_stripId p' t]
        exact hv
      have hg := goPasses_total env rest (pi + 1) t1 st1 hrest
      cases hgo : goPasses env rest (pi + 1) t1 st1 with
      | error e =>
        rw [hgo] at hg
        simp [exceptIsOk] at hg
      | ok r =>
        obtain ⟨tF, stF, trF⟩ := r
        rfl

/-! ## Claim theorems -/

/-- C1 counterexample: the claim says every previously issued reader — including
the store handle captured in a previously built attribute context — observes the
replacement store after `mergeStore`. In the code (line 166-168) a context copies
the current `this.store` reference; after `mergeStore` rebinds `this.store`
(line 78) the captured reference still denotes the old instance. Concretely:
starting from a dispatcher whose store is instance 0, building one context and
then merging leaves the context holding instance 0 while `this.store` is the
fresh instance 1. -/
theorem c1_counterexample :
    (mergeStore (fun a _ => a) 0 (buildContextStore ⟨0, 1, [7], []⟩)).issuedCtxStores
      = [0]
    ∧ (mergeStore (fun a _ => a) 0 (buildContextStore ⟨0, 1, [7], []⟩)).storeId = 1
    ∧ ¬ (∀ c ∈ (mergeStore (fun a _ => a) 0
          (buildContextStore ⟨0, 1, [7], []⟩)).issuedCtxStores,
        c = (mergeStore (fun a _ => a) 0
          (buildContextStore ⟨0, 1, [7], []⟩)).storeId) := by
  refine ⟨rfl, rfl, fun h => ?_⟩
  exact absurd (h 0 (by decide)) (by decide)

/-- C1 (amended): after `mergeStore` the dispatcher's `store` field is a fresh
instance (never previously captured by any context), the old instances' values
are untouched (the store is replaced wholesale, not mutated), and every
previously built attribute context keeps its captured reference to the old
instance — readers that go through the dispatcher see the replacement, captured
handles do not. -/
theorem c1_amended (applyPatch : Nat → Nat → Nat) (patch : Nat) (rt : StoreRuntime)
    (h : StoreWF rt) :
    (mergeStore applyPatch patch rt).storeId = rt.nextId
    ∧ (mergeStore applyPatch patch rt).storeId ∉ rt.issuedCtxStores
    ∧ (mergeStore applyPatch patch rt).issuedCtxStores = rt.issuedCtxStores
    ∧ ∀ i, i < rt.storeVals.length →
        (mergeStore applyPatch patch rt).storeVals.get? i = rt.storeVals.get? i := by
  obtain ⟨_, _, h3⟩ := h
  refine ⟨rfl, ?_, rfl, ?_⟩
  · intro hmem
    have := h3 _ hmem
    simp [mergeStore] at this
  · intro i hi
    show (rt.storeVals ++ [applyPatch (rt.storeVals.getD rt.storeId 0) patch]).get? i
      = rt.storeVals.get? i
    rw [List.get?_eq_getElem?, List.get?_eq_getElem?, List.getElem?_append_left hi]

/-- C1 amended witness: concrete instance of `c1_amended` — after one context
build and one merge, the fresh store id is not among the captured ones. -/
theorem c1_amended_witness :
    (mergeStore (fun a b => a + b) 5 (buildContextStore ⟨0, 1, [7], []⟩)).storeId
      ∉ (buildContextStore ⟨0, 1, [7], []⟩).issuedCtxStores :=
  (c1_amended (fun a b => a + b) 5 (buildContextStore ⟨0, 1, [7], []⟩)
    (show _ ∧ _ ∧ _ from ⟨rfl, by decide, by decide⟩)).2.1

/-- C2 counterexample: the claim says only the failing attribute occurrence is
abandoned and sibling attributes on the same element are still processed in the
same pass. On `badPairTree` the attribute `data-fa="("` fails to compile, and the
`return` at line 194 exits the whole per-element callback: the sibling `data-fb`
(which matches the plugin prefix) is never processed in that pass, while the rest
of the tree (the child's `data-fc`) still is. -/
theorem c2_counterexample :
    applyPlugins parenEnv [plainPlugin] badPairTree initState
      = Except.ok (Element.mk "x1" "d" [("fa", "("), ("fb", "1")]
          [Element.mk "ds--0" "d" [("fc", "2")] []],
        { missingIDNext := 1, parentID := "", removals := [] },
        [DsEvent.flush 0 [] [], DsEvent.logErr 0 [] "#x1" "return (",
         DsEvent.flush 0 [0] [], DsEvent.idAssign [0] 0, DsEvent.attrOk 0 [0] "fc"])
    ∧ DsEvent.attrOk 0 [] "fb"
        ∉ [DsEvent.flush 0 [] [], DsEvent.logErr 0 [] "#x1" "return (",
           DsEvent.flush 0 [0] [], DsEvent.idAssign [0] 0, DsEvent.attrOk 0 [0] "fc"]
    ∧ strStartsWith "fb" plainPlugin.pfx = true :=
  ⟨rfl, by decide, rfl⟩

/-- C2 (amended): a compile failure is caught locally. (a) In full generality:
during any plugin's pass over any element, if the first matching attribute after
an error-free processed prefix `pre` validates but its compiled expression fails
to compile, the failure is logged with the element's identity (`#id`, or the tag
name if the id is empty) and the offending compiled text, the remaining `dataset`
entries of that element are abandoned for this pass (`post` does not appear in
the result), no error escapes, and the walk continues into the element's children
exactly as it would have otherwise. (b) A compile failure never aborts a pass:
a pass over any tree whose matching attributes all pass validation returns
normally, whatever expressions fail to compile. (c) Consequently the remaining
plugins' passes over the same tree, including the same element, still run: the
whole multi-pass run returns normally on any such tree. -/
theorem c2_amended :
    (∀ (env : DispatchEnv) (p : AttributePlugin) (pi : Nat) (q : List Nat)
      (tagName id : String) (st : DsRunState) (pre post : List (String × String))
      (dsKey value : String) (kids : List Element) (id1 : String) (st1 : DsRunState)
      (tr1 : List DsEvent) (key : String) (modifiers : List (String × List String)),
      processAttrs env p pi q tagName pre id (flushedState pi q st)
        = Except.ok (id1, st1, tr1) →
      (∀ ev ∈ tr1, isLogErr ev = false) →
      strStartsWith dsKey p.pfx = true →
      validateAndParse p tagName dsKey value = Except.ok (key, modifiers) →
      compileFails env p (mkCtx q (missingIdAssignedId id1 st1) tagName key
        ((runPreprocessors (env.coreProcs ++ p.preprocessors) [] value).1)
        modifiers) = true →
      walkPass env p pi q st (Element.mk id tagName (pre ++ (dsKey, value) :: post) kids)
        = match walkKids env p pi q 0 (missingIdAssignedState id1 st1) kids with
          | Except.error e => Except.error e
          | Except.ok (kids1, st2, tr2) =>
            Except.ok (Element.mk (missingIdAssignedId id1 st1) tagName
                (pre ++ (dsKey, value) :: post) kids1, st2,
              flushedTr pi q st ++ (tr1 ++ (missingIdAssignedTr q id1 st1 ++
                [DsEvent.logErr pi q
                  (if strLength (missingIdAssignedId id1 st1) == 0 then tagName
                    else "#" ++ missingIdAssignedId id1 st1)
                  (fnContent ((runPreprocessors (env.coreProcs ++ p.preprocessors)
                    [] value).1))])) ++ tr2))
    ∧ (∀ (env : DispatchEnv) (p : AttributePlugin) (pi : Nat) (q : List Nat)
        (st : DsRunState) (el : Element),
        treeValidates p el = true → exceptIsOk (walkPass env p pi q st el) = true)
    ∧ (∀ (env : DispatchEnv) (ps : List AttributePlugin) (t : Element)
        (st : DsRunState),
        (∀ p ∈ ps, treeValidates p t = true) →
        exceptIsOk (applyPlugins env ps t st) = true) := by
  refine ⟨?_, ?_, ?_⟩
  · intro env p pi q tagName id st pre post dsKey value kids id1 st1 tr1 key modifiers
      hpre hnolog hmatch hval hfail
    have hcomp := processAttrs_append env p pi q tagName pre ((dsKey, value) :: post)
      id (flushedState pi q st) id1 st1 tr1 hpre hnolog
    rw [processAttrs_failHead env p pi q tagName dsKey value post id1 st1
      key modifiers hmatch hval hfail] at hcomp
    dsimp only at hcomp
    simp only [walkPass]
    rw [hcomp]
  · exact fun env p pi q st el => walkPass_total env p pi el q st
  · exact fun env ps t st => goPasses_total env ps 0 t st

/-- C2 amended witness: `c2_amended` at concrete inputs. (a) On an element whose
dataset is `data-fz="9"` (compiles), `data-fa="("` (fails to compile), then
`data-fb="1"`: the prefix `fz` is processed, the failure on `fa` is logged under
`#x1`, and `fb` is abandoned. (b) and (c): the pass, and the whole two-pass run,
over `badPairTree` return normally despite the compile failure on `fa`. -/
theorem c2_amended_witness :
    walkPass parenEnv plainPlugin 0 [] initState
        (Element.mk "x1" "d" [("fz", "9"), ("fa", "("), ("fb", "1")] [])
      = Except.ok (Element.mk "x1" "d" [("fz", "9"), ("fa", "("), ("fb", "1")] [],
          initState,
          [DsEvent.flush 0 [] [], DsEvent.attrOk 0 [] "fz",
           DsEvent.logErr 0 [] "#x1" "return ("])
    ∧ exceptIsOk (walkPass parenEnv plainPlugin 0 [] initState badPairTree) = true
    ∧ exceptIsOk (applyPlugins parenEnv [plainPlugin, plainPlugin] badPairTree
        initState) = true := by
  refine ⟨?_, ?_, ?_⟩
  · exact (c2_amended.1 parenEnv plainPlugin 0 [] "d" "x1" initState
      [("fz", "9")] [("fb", "1")] "fa" "(" [] "x1" initState
      [DsEvent.attrOk 0 [] "fz"] "a" [] rfl (by decide) rfl rfl rfl).trans rfl
  · exact c2_amended.2.1 parenEnv plainPlugin 0 [] initState badPairTree (by decide)
  · exact c2_amended.2.2 parenEnv [plainPlugin, plainPlugin] badPairTree initState
      (by decide)

/-- C3 counterexample: the claim says registering a second plugin with an
already-used prefix is rejected. The constructor (lines 36-48) performs no
prefix-uniqueness check: registering two plugins with prefix `"foo"` succeeds
and keeps both, in order. -/
theorem c3_counterexample :
    dupPluginA.pfx = dupPluginB.pfx
    ∧ datastarConstructorCombined [dupPluginA, dupPluginB]
        = Except.ok [dupPluginA, dupPluginB] :=
  ⟨rfl, rfl⟩

/-- C3 (amended): registration accepts plugins sharing a prefix — both are kept
in registration order (each later runs its own pass, multiplexing by prefix
order); the second neither replaces the first nor is rejected. -/
theorem c3_amended (pA pB : AttributePlugin) (_hpfx : pA.pfx = pB.pfx)
    (hA : reqPrefixes pA = []) (hB : reqPrefixes pB = []) :
    datastarConstructorCombined [pA, pB] = Except.ok [pA, pB] := by
  simp [datastarConstructorCombined, registerPlugins, firstUnmet, hA, hB]

/-- C3 amended witness: `c3_amended` at the two concrete `"foo"`-plugins. -/
theorem c3_amended_witness :
    datastarConstructorCombined [dupPluginA, dupPluginB]
      = Except.ok [dupPluginA, dupPluginB] :=
  c3_amended dupPluginA dupPluginB rfl rfl rfl

/-- C4: if any plugin of the combined list declares a `requiredPluginPrefixes`
entry whose provider does not appear strictly earlier in the list, the
constructor throws. Dependency satisfaction is positional: the hypothesis only
constrains the prefixes of *earlier* entries, so a provider appearing later does
not prevent the error. -/
theorem c4_requiredPrefixesPositional (plugins : List AttributePlugin) (i : Nat)
    (p : AttributePlugin) (r : String) (h1 : plugins.get? i = some p)
    (h2 : r ∈ reqPrefixes p) (h3 : r ∉ prefixList (plugins.take i)) :
    ∃ msg, datastarConstructorCombined plugins = Except.error msg := by
  have main : ∀ (l : List AttributePlugin) (acc : List AttributePlugin)
      (seen : List String) (i : Nat) (p : AttributePlugin) (r : String),
      l.get? i = some p → r ∈ reqPrefixes p → r ∉ seen →
      r ∉ prefixList (l.take i) →
      ∃ msg, registerPlugins l acc seen = Except.error msg := by
    intro l
    induction l with
    | nil => intro acc seen i p r h1; simp at h1
    | cons q rest ih =>
      intro acc seen i p r h1 h2 h3 h4
      cases i with
      | zero =>
        have hqp : q = p := by simpa using h1
        cases hf : firstUnmet q seen with
        | some r' =>
          exact ⟨"Plugin " ++ q.pfx ++ " requires plugin " ++ r',
            by simp [registerPlugins, hf]⟩
        | none =>
          exfalso
          have := List.find?_eq_none.mp hf r (by rw [hqp]; exact h2)
          simp at this
          exact h3 this
      | succ i' =>
        cases hf : firstUnmet q seen with
        | some r' =>
          exact ⟨"Plugin " ++ q.pfx ++ " requires plugin " ++ r',
            by simp [registerPlugins, hf]⟩
        | none =>
          simp only [registerPlugins, hf]
          refine ih (acc ++ [q]) (seen ++ [q.pfx]) i' p r (by simpa using h1) h2 ?_ ?_
          · simp only [prefixList, List.take_succ_cons, List.map_cons,
              List.mem_cons, not_or] at h4
            simp only [List.mem_append, List.mem_singleton, not_or]
            exact ⟨h3, h4.1⟩
          · simp only [prefixList, List.take_succ_cons, List.map_cons,
              List.mem_cons, not_or] at h4
            exact h4.2
  cases plugins with
  | nil => simp at h1
  | cons q rest =>
    obtain ⟨msg, hmsg⟩ := main (q :: rest) [] [] i p r h1 h2 (by simp) h3
    exact ⟨msg, by simpa [datastarConstructorCombined] using hmsg⟩

/-- C4 witness: `depPluginB` (requires `"a"`) listed before its provider
`depPluginA` — registration fails even though a later entry provides `"a"`. -/
theorem c4_witness :
    ∃ msg, datastarConstructorCombined [depPluginB, depPluginA]
      = Except.error msg :=
  c4_requiredPrefixesPositional [depPluginB, depPluginA] 0 depPluginB "a" rfl
    (by decide) (by decide)

/-- C5 counterexample: the claim says the key-emptiness requirement is checked
before the tag allow-list, so that when both are violated the key error is
raised. The code checks the tag allow-list first (line 103) and the key
requirement only afterwards (lines 118-123): on a `DIV` carrying the bare
attribute `f` (empty key) under `tagKeyPlugin` (non-empty key required, only
`input` allowed), the raised error is the tag error, not the key error. -/
theorem c5_counterexample :
    validateAndParse tagKeyPlugin "DIV" "f" ""
      = Except.error (DsError.tagNotAllowed "DIV" "f")
    ∧ Except.error (DsError.tagNotAllowed "DIV" "f")
        ≠ (Except.error (DsError.mustNotEmptyKey "f") :
            Except DsError (String × List (String × List String)))
    ∧ keyViolated tagKeyPlugin "f" = true
    ∧ tagViolated tagKeyPlugin "DIV" = true :=
  ⟨rfl, by simp, rfl, rfl⟩

/-- C5 (amended): the four plugin-declared validations are applied in the order
tag-name allow-list → empty/non-empty key requirement → modifier label
allow-list → empty/non-empty expression requirement; in particular, when both
the key requirement and the tag allow-list are violated, the tag error is the
one raised. -/
theorem c5_amended (p : AttributePlugin) (tagName dsKey expression : String) :
    (tagViolated p tagName = true →
      validateAndParse p tagName dsKey expression
        = Except.error (DsError.tagNotAllowed tagName dsKey))
    ∧ (tagViolated p tagName = false → keyViolated p dsKey = true →
        isKeyError (validateAndParse p tagName dsKey expression) = true)
    ∧ (tagViolated p tagName = false → keyViolated p dsKey = false →
        modifierViolated p dsKey = true →
        isModifierError (validateAndParse p tagName dsKey expression) = true)
    ∧ (tagViolated p tagName = false → keyViolated p dsKey = false →
        modifierViolated p dsKey = false → exprViolated p expression = true →
        isExprError (validateAndParse p tagName dsKey expression) = true) := by
  have htag : tagViolated p tagName
      = !(match p.allowedTagRegexps with
          | some rs => rs.any (fun r => r (strToLower tagName))
          | none => true) := by
    unfold tagViolated
    cases p.allowedTagRegexps <;> simp
  refine ⟨?_, ?_, ?_, ?_⟩
  · intro hT
    rw [htag] at hT
    simp only [validateAndParse]
    rw [if_pos hT]
  · intro hT hK
    rw [htag] at hT
    simp only [validateAndParse]
    rw [if_neg (by simp [hT])]
    unfold keyViolated at hK
    by_cases hA : (p.mustHaveEmptyKey && !(strLength (parsedKey0 p dsKey) == 0)) = true
    · rw [if_pos hA]
      rfl
    · rw [if_neg hA]
      have hB : (p.mustNotEmptyKey && (strLength (parsedKey0 p dsKey) == 0)) = true := by
        rcases Bool.or_eq_true_iff.mp hK with hh | hh
        · exact absurd hh hA
        · exact hh
      rw [if_pos hB]
      rfl
  · intro hT hK hM
    rw [htag] at hT
    simp only [validateAndParse]
    rw [if_neg (by simp [hT])]
    unfold keyViolated at hK
    have hAB := Bool.or_eq_false_iff.mp hK
    rw [if_neg (by simp [hAB.1]), if_neg (by simp [hAB.2])]
    have hsome : ∃ m', badModifierOf p dsKey = some m' := by
      unfold modifierViolated at hM
      cases hal : p.allowedModifiers with
      | none => rw [hal] at hM; simp at hM
      | some allowed =>
        rw [hal] at hM
        obtain ⟨m, hm, hpm⟩ := List.any_eq_true.mp hM
        cases hf : (parsedModifiersArr p dsKey).find?
            (fun m => !(allowed.contains m.1)) with
        | none =>
          exfalso
          have := List.find?_eq_none.mp hf m hm
          rw [hpm] at this
          simp at this
        | some m' =>
          refine ⟨m', ?_⟩
          unfold badModifierOf
          rw [hal]
          exact hf
    obtain ⟨m', hm'⟩ := hsome
    rw [hm']
    rfl
  · intro hT hK hM hE
    rw [htag] at hT
    simp only [validateAndParse]
    rw [if_neg (by simp [hT])]
    unfold keyViolated at hK
    have hAB := Bool.or_eq_false_iff.mp hK
    rw [if_neg (by simp [hAB.1]), if_neg (by simp [hAB.2])]
    have hfind : badModifierOf p dsKey = none := by
      unfold modifierViolated at hM
      unfold badModifierOf
      cases hal : p.allowedModifiers with
      | none => rfl
      | some allowed =>
        rw [hal] at hM
        refine List.find?_eq_none.mpr ?_
        intro m hm
        have := List.any_eq_false.mp hM m hm
        simp only [this]
        simp
    rw [hfind]
    unfold exprViolated at hE
    by_cases hC : (p.mustHaveEmptyExpression && !(strLength expression == 0)) = true
    · rw [if_pos hC]
      rfl
    · rw [if_neg hC]
      have hD : (p.mustNotEmptyExpression && (strLength expression == 0)) = true := by
        rcases Bool.or_eq_true_iff.mp hE with hh | hh
        · exact absurd hh hC
        · exact hh
      rw [if_pos hD]
      rfl

/-- C5 amended witness: `c5_amended` applied at four concrete inputs, one per
validation: the tag error wins over a simultaneous key violation; a key, a
modifier and an expression violation each surface when the earlier checks pass. -/
theorem c5_amended_witness :
    validateAndParse tagKeyPlugin "DIV" "f" "1"
      = Except.error (DsError.tagNotAllowed "DIV" "f")
    ∧ isKeyError (validateAndParse keyOnlyPlugin "d" "f" "1") = true
    ∧ isModifierError (validateAndParse modOnlyPlugin "d" "fk.x_1" "1") = true
    ∧ isExprError (validateAndParse exprOnlyPlugin "d" "fk" "") = true :=
  ⟨(c5_amended tagKeyPlugin "DIV" "f" "1").1 (by decide),
   (c5_amended keyOnlyPlugin "d" "f" "1").2.1 (by decide) (by decide),
   (c5_amended modOnlyPlugin "d" "fk.x_1" "1").2.2.1 (by decide) (by decide) (by decide),
   (c5_amended exprOnlyPlugin "d" "fk" "").2.2.2 (by decide) (by decide) (by decide)
     (by decide)⟩

/-- C6: during a full dispatch (`applyPlugins`) with a nonempty plugin list,
(1) every registry flush happens during plugin pass 0 — later passes never
flush; (2) for every element of the tree a flush fires invoking exactly the
teardowns previously registered for it (those in the entry state's registry,
from any plugin and any prior walk — the entry is cleared by
`cleanupElementRemovals`); (3) no attribute-processing event for an element
precedes the first flush of that element, i.e. every element's teardowns are
retired before the first plugin processes it. -/
theorem c6_teardownFlushDiscipline (env : DispatchEnv) (ps : List AttributePlugin)
    (tree : Element) (st0 : DsRunState) (tree' : Element) (st' : DsRunState)
    (tr : List DsEvent)
    (h : applyPlugins env ps tree st0 = Except.ok (tree', st', tr)) (hne : ps ≠ []) :
    (∀ pv s fired, DsEvent.flush pv s fired ∈ tr → pv = 0)
    ∧ (∀ s, s ∈ elementPaths tree →
        DsEvent.flush 0 s ((lookupRemovals st0.removals s).getD []) ∈ tr)
    ∧ (∀ r, noAttrBeforeFlush r tr) := by
  unfold applyPlugins at h
  refine ⟨?_, ?_, ?_⟩
  · intro pv s fired hm
    exact (goPasses_flush_mem env ps 0 tree st0 tree' st' tr h pv s fired hm).2
  · cases ps with
    | nil => exact absurd rfl hne
    | cons p rest =>
      simp only [goPasses] at h
      split at h
      · exact absurd h (by simp)
      · next t1 st1 tr1 heq1 =>
        split at h
        · exact absurd h (by simp)
        · next t2 st2 tr2 heq2 =>
          simp only [Except.ok.injEq, Prod.mk.injEq] at h
          intro s hs
          rw [← h.2.2]
          have := (walkPass_flushes env p tree [] st0 t1 st1 tr1 heq1).1 s hs
          rw [List.nil_append] at this
          exact List.mem_append.mpr (Or.inl this)
  · cases ps with
    | nil => exact absurd rfl hne
    | cons p rest =>
      simp only [goPasses] at h
      split at h
      · exact absurd h (by simp)
      · next t1 st1 tr1 heq1 =>
        split at h
        · exact absurd h (by simp)
        · next t2 st2 tr2 heq2 =>
          simp only [Except.ok.injEq, Prod.mk.injEq] at h
          intro r
          rw [← h.2.2]
          by_cases hr : r ∈ elementPaths tree
          · refine nabf_of_flush_mem r tr1 tr2
              ((walkPass_flushes env p tree [] st0 t1 st1 tr1 heq1).2 r) ?_
            have hmem := (walkPass_flushes env p tree [] st0 t1 st1 tr1 heq1).1 r hr
            rw [List.nil_append] at hmem
            exact ⟨_, hmem, eventIsFlushAt_flush_self r 0 _⟩
          · refine nabf_of_all_notProc r tr1 tr2 ?_ ?_
            · intro ev hev
              obtain ⟨s, hs, hp⟩ :=
                (walkPass_locality env p 0 tree [] st0 t1 st1 tr1 heq1).1 ev hev
              rw [List.nil_append] at hp
              refine eventIsProcAt_false_of_ne r ev ?_
              rw [hp]
              intro hh
              exact hr (hh ▸ hs)
            · refine nabf_of_noProc r tr2 ?_
              intro ev hev
              have hin := goPasses_eventPaths env rest 1 t1 st1 t2 st2 tr2 heq2 ev hev
              rw [elementPaths_congr t1 tree
                (walkPass_state env p 0 tree [] st0 t1 st1 tr1 heq1).2.1] at hin
              exact eventIsProcAt_false_of_ne r ev (fun hh => hr (hh ▸ hin))

/-- C6 witness: `c6_teardownFlushDiscipline` on a concrete two-pass dispatch over
`smallTree`: the child's flush event is in the trace and no processing of the
child precedes its flush. -/
theorem c6_witness :
    DsEvent.flush 0 [0] [] ∈
      ([DsEvent.flush 0 [] [], DsEvent.idAssign [] 0, DsEvent.attrOk 0 [] "fa",
        DsEvent.flush 0 [0] [], DsEvent.attrOk 0 [0] "fb",
        DsEvent.attrOk 1 [] "fa", DsEvent.attrOk 1 [0] "fb"] : List DsEvent)
    ∧ noAttrBeforeFlush [0]
        [DsEvent.flush 0 [] [], DsEvent.idAssign [] 0, DsEvent.attrOk 0 [] "fa",
         DsEvent.flush 0 [0] [], DsEvent.attrOk 0 [0] "fb",
         DsEvent.attrOk 1 [] "fa", DsEvent.attrOk 1 [0] "fb"] := by
  have hc := c6_teardownFlushDiscipline parenEnv [plainPlugin, exprOnlyPlugin]
    smallTree initState
    (Element.mk "ds--0" "d" [("fa", "1")] [Element.mk "k" "d" [("fb", "2")] []])
    { missingIDNext := 1, parentID := "", removals := [] }
    [DsEvent.flush 0 [] [], DsEvent.idAssign [] 0, DsEvent.attrOk 0 [] "fa",
     DsEvent.flush 0 [0] [], DsEvent.attrOk 0 [0] "fb",
     DsEvent.attrOk 1 [] "fa", DsEvent.attrOk 1 [0] "fb"]
    rfl (by simp)
  exact ⟨hc.2.1 [0] (by decide), hc.2.2 [0]⟩

/-- C7: within one attribute occurrence, each preprocessor (core-wide or
plugin-local, the dispatcher passes `CorePreprocessors ++ p.preprocessors` and a
set cleared at line 101) has its rewrite applied at most once, whatever its
rewrite does to the text: the identities of the preprocessors whose rewrite ran
form a duplicate-free list, disjoint from the already-applied set. -/
theorem c7_preprocessorAppliedOnce (procs : List Preprocesser) (applied : List Nat)
    (expr : String) :
    (runPreprocessors procs applied expr).2.2.Nodup
    ∧ ∀ x ∈ (runPreprocessors procs applied expr).2.2, x ∉ applied := by
  induction procs generalizing applied expr with
  | nil => simp [runPreprocessors]
  | cons proc rest ih =>
    by_cases h : proc.pid ∈ applied
    · simp only [runPreprocessors, if_pos h]
      exact ih applied expr
    · simp only [runPreprocessors, if_neg h]
      have hih := ih (applied ++ [proc.pid]) (proc.rewrite expr)
      constructor
      · simp only [List.nodup_cons]
        refine ⟨?_, hih.1⟩
        intro hmem
        exact (hih.2 proc.pid hmem) (by simp)
      · intro x hx
        rcases List.mem_cons.mp hx with rfl | hx'
        · exact h
        · intro hxa
          exact (hih.2 x hx') (by simp [hxa])

/-- C8 counterexample: the claim says constructing with an empty user plugin
list raises an error. With the (nonempty) built-in list prepended at line 33,
the combined list is nonempty, the line 34 check passes, and construction
succeeds, returning exactly the built-ins. -/
theorem c8_counterexample :
    datastarConstructor [] = Except.ok CorePlugins := rfl

/-- C8 (amended): the `'No plugins provided'` error is raised exactly when the
*combined* built-ins-then-user list is empty; since built-ins are always
prepended and nonempty, an empty user plugin list is accepted and the emptiness
check never fires for any user list. -/
theorem c8_amended :
    datastarConstructorCombined ([] : List AttributePlugin)
      = Except.error "No plugins provided"
    ∧ datastarConstructor [] = Except.ok CorePlugins
    ∧ ∀ userPlugins : List AttributePlugin,
        datastarConstructor userPlugins
          = registerPlugins (CorePlugins ++ userPlugins) [] [] :=
  ⟨rfl, rfl, fun _ => rfl⟩

/-- C9: flushing an element's teardown set twice in a row invokes each
registered teardown exactly once: the first flush invokes exactly the stored
set (or nothing when no entry exists), and the second flush finds no entry,
invokes nothing, and leaves the registry unchanged. -/
theorem c9_flushIdempotent (m : RemovalMap) (q : List Nat) :
    (cleanupElementRemovals m q).1 = (lookupRemovals m q).getD []
    ∧ cleanupElementRemovals (cleanupElementRemovals m q).2 q
        = ([], (cleanupElementRemovals m q).2) := by
  refine ⟨cleanup_fired m q, ?_⟩
  unfold cleanupElementRemovals
  cases hl : lookupRemovals m q with
  | none => simp [hl]
  | some s => simp [hl, lookupRemovals_erase_self]

/-- C10: for a completed dispatch pass, (1) every element whose id was nonempty
keeps it unchanged; (2) every element whose id was the empty string and which
carries at least one dataset attribute matching some registered plugin's prefix
ends up with a generated id of the form `ds-<parentID>-<n>`; (3) the assigned
counters are exactly the consecutive range starting at the dispatcher's entry
counter, hence (4) strictly increasing across assignments — and the final
counter carries on from there for the rest of the dispatcher's lifetime. -/
theorem c10_missingIdAssignment (env : DispatchEnv) (ps : List AttributePlugin)
    (tree : Element) (st0 : DsRunState) (tree' : Element) (st' : DsRunState)
    (tr : List DsEvent)
    (h : applyPlugins env ps tree st0 = Except.ok (tree', st', tr)) :
    (∀ r el0, elementAt tree r = some el0 → ¬ strLength el0.id = 0 →
      idAt tree' r = some el0.id)
    ∧ (∀ r el0 p, elementAt tree r = some el0 → strLength el0.id = 0 → p ∈ ps →
        (∃ kv ∈ el0.dataset, strStartsWith kv.1 p.pfx = true) →
        ∃ n, idAt tree' r = some (dsId st0.parentID n))
    ∧ assignedNats tr
        = List.range' st0.missingIDNext (st'.missingIDNext - st0.missingIDNext)
    ∧ List.Chain' (· < ·) (assignedNats tr) := by
  unfold applyPlugins at h
  obtain ⟨hpid, hstrip, k, hn, hc⟩ := goPasses_state env ps 0 tree st0 tree' st' tr h
  refine ⟨?_, ?_, ?_, ?_⟩
  · intro r el0 helr hne
    exact goPasses_id_keep env ps 0 tree st0 tree' st' tr h r el0.id
      (idAt_of_elementAt tree r el0 helr) hne
  · intro r el0 p helr h0 hp hex
    exact goPasses_assign env ps 0 tree st0 tree' st' tr h r el0 p helr h0 hp hex
  · rw [hn]
    congr 1
    omega
  · rw [hn]
    exact (List.pairwise_lt_range' st0.missingIDNext k).chain'

/-- C10 witness: `c10_missingIdAssignment` on a concrete dispatch over
`smallTree`: the child keeps its preset id `"k"`, the assigned counters are the
range starting at 0, and they increase strictly. -/
theorem c10_witness :
    idAt (Element.mk "ds--0" "d" [("fa", "1")]
        [Element.mk "k" "d" [("fb", "2")] []]) [0] = some "k"
    ∧ assignedNats [DsEvent.flush 0 [] [], DsEvent.idAssign [] 0,
        DsEvent.attrOk 0 [] "fa", DsEvent.flush 0 [0] [], DsEvent.attrOk 0 [0] "fb"]
        = List.range' 0 (1 - 0)
    ∧ List.Chain' (· < ·)
        (assignedNats [DsEvent.flush 0 [] [], DsEvent.idAssign [] 0,
          DsEvent.attrOk 0 [] "fa", DsEvent.flush 0 [0] [],
          DsEvent.attrOk 0 [0] "fb"]) := by
  have hc := c10_missingIdAssignment parenEnv [plainPlugin] smallTree initState
    (Element.mk "ds--0" "d" [("fa", "1")] [Element.mk "k" "d" [("fb", "2")] []])
    { missingIDNext := 1, parentID := "", removals := [] }
    [DsEvent.flush 0 [] [], DsEvent.idAssign [] 0, DsEvent.attrOk 0 [] "fa",
     DsEvent.flush 0 [0] [], DsEvent.attrOk 0 [0] "fb"]
    rfl
  exact ⟨hc.1 [0] (Element.mk "k" "d" [("fb", "2")] []) rfl (by decide),
    hc.2.2.1, hc.2.2.2⟩
